import Mathlib

/-!
ContactsImporterListModel.

A shallow embedding of `ContactsImporterListModel.cpp` (linphone-desktop): the list of
contacts importer instances, its maximum-identity counter and the signals it emits.

* C++ `int` values are `Int`; the two places where the source adds to an `int`
  (`row + count - 1`, `++mMaxContactsImporterId`) wrap to 32 bits.
* `ContactsImporterModel *` is an address (`Nat`) into a heap of objects.
* Signals and calls into collaborators are recorded, in order, in a trace.
* An operation whose source has no defined result (a `takeAt` outside the list) returns `none`.
-/

namespace ContactsImporter

/-! ## Machine integers -/

/-- Largest value of a C++ `int`. -/
def INT_MAX : Int := 2147483647

/-- Two's-complement wrap-around of an integer result to a 32-bit `int`. -/
def wrapInt (x : Int) : Int := (x + 2147483648) % 4294967296 - 2147483648

/-! ## Field maps -/

/-- A `QVariant`: a value that converts to a string; `tag` stands for the rest of its payload. -/
structure QVariant where
  toString : String
  tag : Nat
deriving DecidableEq, Repr

/-- Assignment `m[k] = v` on the entries of a map: replace the value of `k`, or add the key. -/
def insertEntry (k : String) (v : QVariant) : List (String × QVariant) → List (String × QVariant)
  | [] => [(k, v)]
  | (k', v') :: rest => if k' = k then (k, v) :: rest else (k', v') :: insertEntry k v rest

/-- A `QVariantMap` (`QMap<QString, QVariant>`): at most one value per key. Only lookups and
key sets are read off a map, so the entries are not kept in key order. -/
structure QVariantMap where
  entries : List (String × QVariant)
  nodupKeys : (entries.map Prod.fst).Nodup

/-- The empty map. -/
def QVariantMap.empty : QVariantMap := ⟨[], List.nodup_nil⟩

/-- The keys of a map. -/
def QVariantMap.keys (m : QVariantMap) : List String := m.entries.map Prod.fst

/-- Qt's `QMap::contains`. -/
def QVariantMap.contains (m : QVariantMap) (k : String) : Bool := decide (k ∈ m.keys)

/-- The value stored under `k`, if any. -/
def QVariantMap.find? (m : QVariantMap) (k : String) : Option QVariant :=
  (m.entries.find? (fun e => decide (e.1 = k))).map Prod.snd

/-- The read `m[k]`: the value stored under `k`, a default-constructed `QVariant` (whose string
is empty) if there is none. -/
def QVariantMap.value (m : QVariantMap) (k : String) : QVariant :=
  (m.find? k).getD ⟨"", 0⟩

/-- The assignment `m[k] = v`. -/
def QVariantMap.insert (m : QVariantMap) (k : String) (v : QVariant) : QVariantMap :=
  ⟨insertEntry k v m.entries, by
    have key : ∀ l : List (String × QVariant), (l.map Prod.fst).Nodup →
        ((insertEntry k v l).map Prod.fst).Nodup ∧
        ∀ x, x ∈ (insertEntry k v l).map Prod.fst → x = k ∨ x ∈ l.map Prod.fst := by
      intro l
      induction l with
      | nil => intro _; simp [insertEntry]
      | cons e rest ih =>
        intro h
        obtain ⟨k', v'⟩ := e
        simp only [List.map_cons, List.nodup_cons] at h
        obtain ⟨h1, h2⟩ := h
        obtain ⟨ih1, ih2⟩ := ih h2
        by_cases hk : k' = k
        · subst hk
          simp only [insertEntry, if_true, List.map_cons, List.nodup_cons]
          exact ⟨⟨h1, h2⟩, fun x hx => by simpa using hx⟩
        · simp only [insertEntry, if_neg hk, List.map_cons, List.nodup_cons]
          refine ⟨⟨fun hmem => ?_, ih1⟩, fun x hx => ?_⟩
          · rcases ih2 k' hmem with h3 | h3
            · exact hk h3
            · exact h1 h3
          · rcases List.mem_cons.1 hx with h3 | h3
            · exact Or.inr (List.mem_cons.2 (Or.inl h3))
            · rcases ih2 x h3 with h4 | h4
              · exact Or.inl h4
              · exact Or.inr (List.mem_cons.2 (Or.inr h4))
    exact (key m.entries m.nodupKeys).1⟩

/-- The loop `for (field = src.begin(); field != src.end(); ++field) dst[field.key()] = field.value();`. -/
def QVariantMap.overlay (dst src : QVariantMap) : QVariantMap :=
  src.entries.foldl (fun m f => m.insert f.1 f.2) dst

/-! ## Objects, signals and the list model -/

/-- Modelled from the spec: the state of a `ContactsImporterModel` object (its class is not part
of the translated file): an integer identity and a map of field values. -/
structure ContactsImporterModel where
  mIdentity : Int
  mFields : QVariantMap

/-- Signals emitted by the list model and calls it makes into its collaborators. -/
inductive Event where
  | beginRemoveRows (first last : Int)
  | endRemoveRows
  | beginInsertRows (first last : Int)
  | endInsertRows
  | contactsImporterAdded (p : Nat)
  | contactsImporterRemoved (p : Nat)
  | contactsImporterUpdated (p : Nat)
  | deleteLater (p : Nat)
  | cleanSection (name : String)
  | importContacts (p : Nat)
deriving DecidableEq, Repr

/-- The state of a `ContactsImporterListModel`: the objects it can point to (`heap`, with `next`
the address the next `new` returns), the rows `mList`, the counter `mMaxContactsImporterId`, and
the trace of signals and collaborator calls so far. -/
structure ContactsImporterListModel where
  heap : Nat → ContactsImporterModel
  next : Nat
  mList : List Nat
  mMaxContactsImporterId : Int
  trace : List Event

/-- Store object `o` at address `p`. -/
def setObj (heap : Nat → ContactsImporterModel) (p : Nat) (o : ContactsImporterModel) :
    Nat → ContactsImporterModel :=
  fun q => if q = p then o else heap q

/-- The call `contactsImporter->getIdentity()`. -/
def ContactsImporterListModel.getIdentity (s : ContactsImporterListModel) (p : Nat) : Int :=
  (s.heap p).mIdentity

/-- The identities of the rows, in row order. -/
def ContactsImporterListModel.identities (s : ContactsImporterListModel) : List Int :=
  s.mList.map s.getIdentity

/-- The method `rowCount`: `mList.count()`. -/
def rowCount (s : ContactsImporterListModel) : Int := s.mList.length

/-- The body of the loop of `removeRows`, run `n` times: `mList.takeAt(row)`, emit
`contactsImporterRemoved`, `deleteLater`. `takeAt` on a row that does not exist has no defined
result (`none`). -/
def removeRowsLoop (row : Nat) : Nat → ContactsImporterListModel → Option ContactsImporterListModel
  | 0, s => some s
  | n + 1, s =>
    match s.mList.get? row with
    | none => none
    | some p =>
      removeRowsLoop row n
        { s with
          mList := s.mList.eraseIdx row
          trace := s.trace ++ [Event.contactsImporterRemoved p, Event.deleteLater p] }

/-- The method `ContactsImporterListModel::removeRows (int row, int count, const QModelIndex &)`. -/
def removeRows (s : ContactsImporterListModel) (row count : Int) :
    Option (Bool × ContactsImporterListModel) :=
  let limit := wrapInt (row + count - 1)
  if row < 0 ∨ count < 0 ∨ limit ≥ rowCount s then some (false, s)
  else
    match removeRowsLoop row.toNat count.toNat
        { s with trace := s.trace ++ [Event.beginRemoveRows row limit] } with
    | none => none
    | some s' => some (true, { s' with trace := s'.trace ++ [Event.endRemoveRows] })

/-- The method `ContactsImporterListModel::removeRow (int row, const QModelIndex &)`. -/
def removeRow (s : ContactsImporterListModel) (row : Int) :
    Option (Bool × ContactsImporterListModel) :=
  removeRows s row 1

/-- The state of a newly constructed list before the configuration scan. -/
def emptyModel : ContactsImporterListModel :=
  { heap := fun _ => ⟨-1, QVariantMap.empty⟩
    next := 0
    mList := []
    mMaxContactsImporterId := -1
    trace := [] }

/-! ## Collaborators -/

/-- What the list model uses of a `ContactsImporterPlugin`: the field values reported by
`getFields()` of the instance that `createInstance` returns. -/
structure ContactsImporterPlugin where
  instanceFields : QVariantMap

/-- The collaborators the translated file calls into; none of them is part of it, so they are
parameters: the constant `ContactsImporterPluginsManager::ContactsSection`, the table
`gPluginsMap` (an absent key reads as its default value), `getPlugin` (`none` for `nullptr`),
`getDefaultValues`, Qt's `QString::toInt()` and `ContactsImporterModel::loadConfiguration`
(given the identity and the current fields, the fields after loading). -/
structure Env where
  ContactsSection : String
  gPluginsMap : String → String
  getPlugin : String → Option ContactsImporterPlugin
  getDefaultValues : String → QVariantMap
  toInt : String → Int
  loadConfiguration : Int → QVariantMap → QVariantMap

/-- The configuration store (`linphone::Config`) as read by the constructor. -/
structure Config where
  getSectionsNamesList : List String
  getKeysNamesList : String → List String
  getString : String → String → String → String

/-! ## QString::split -/

/-- Scan for `QString::split(sep)` with a non-empty `sep`, all parts kept: `cur` is the part
being read (reversed), `skip` the number of characters of a separator just found that are still
to pass. -/
def splitAux (sep : List Char) : List Char → Nat → List Char → List (List Char)
  | [], _, cur => [cur.reverse]
  | _ :: cs, skip + 1, cur => splitAux sep cs skip cur
  | c :: cs, 0, cur =>
    if sep.isPrefixOf (c :: cs) then cur.reverse :: splitAux sep cs (sep.length - 1) []
    else splitAux sep cs 0 (c :: cur)

/-- The call `str.split(sep)`. -/
def qSplit (str sep : String) : List String :=
  (splitAux sep.data str.data 0 []).map String.mk

/-! ## The operations of the list model -/

/-- The method `ContactsImporterListModel::findContactsImporterModelFromId`: the first row whose identity
is `id`, `none` for `nullptr`. -/
def findContactsImporterModelFromId (s : ContactsImporterListModel) (id : Int) : Option Nat :=
  s.mList.find? (fun p => decide (s.getIdentity p = id))

/-- The method `ContactsImporterListModel::addContactsImporter (ContactsImporterModel *)`: connect the
object's `fieldsChanged` and `identityChanged` signals to `contactsImporterUpdated`, append it.
This is the only place where `mList` grows, so every row is a connected object. -/
def addContactsImporterModel (s : ContactsImporterListModel) (p : Nat) :
    ContactsImporterListModel :=
  { s with mList := s.mList ++ [p] }

/-- One turn of the constructor's loop over the section names. The new object's `setIdentity`
and `loadConfiguration` run before it is connected, so the list emits nothing. -/
def constructStep (env : Env) (config : Config) (s : ContactsImporterListModel)
    (sec : String) : ContactsImporterListModel :=
  let parse := qSplit sec (env.ContactsSection ++ "_")
  if parse.length > 1 then
    let id := env.toInt (parse.getD 1 "")
    let s1 := { s with mMaxContactsImporterId := max id s.mMaxContactsImporterId }
    if "pluginTitle" ∈ config.getKeysNamesList sec then
      let pluginTitle := env.gPluginsMap (config.getString sec "pluginTitle" "")
      match env.getPlugin pluginTitle with
      | some plugin =>
        let model := s1.next
        let obj : ContactsImporterModel :=
          { mIdentity := id, mFields := env.loadConfiguration id plugin.instanceFields }
        addContactsImporterModel { s1 with heap := setObj s1.heap model obj, next := model + 1 } model
      | none => s1
    else s1
  else s

/-- The constructor `ContactsImporterListModel::ContactsImporterListModel`: the configuration scan. -/
def construct (env : Env) (config : Config) : ContactsImporterListModel :=
  config.getSectionsNamesList.foldl (constructStep env config) emptyModel

/-- The map `newData` built by `createContactsImporter`: the plugin's default values, then the
instance's fields, then the caller's `data`. -/
def createNewData (env : Env) (plugin : ContactsImporterPlugin) (title : String)
    (data : QVariantMap) : QVariantMap :=
  ((env.getDefaultValues title).overlay plugin.instanceFields).overlay data

/-- The method `ContactsImporterListModel::createContactsImporter (QVariantMap data)`; the result is the
returned pointer (`none` for `nullptr`) and the new state. `setIdentity` and `setFields` run on
the new object before it is connected, so the list emits no update for them. -/
def createContactsImporter (env : Env) (s : ContactsImporterListModel) (data : QVariantMap) :
    Option Nat × ContactsImporterListModel :=
  if data.contains "pluginTitle" then
    match env.getPlugin (data.value "pluginTitle").toString with
    | none => (none, s)
    | some plugin =>
      let contactsImporter := s.next
      let newData := createNewData env plugin (data.value "pluginTitle").toString data
      let newId := wrapInt (s.mMaxContactsImporterId + 1)
      let obj : ContactsImporterModel := { mIdentity := newId, mFields := newData }
      let row : Int := rowCount s
      let s1 : ContactsImporterListModel :=
        { s with
          heap := setObj s.heap contactsImporter obj
          next := contactsImporter + 1
          mMaxContactsImporterId := newId
          trace := s.trace ++ [Event.beginInsertRows row row] }
      let s2 := addContactsImporterModel s1 contactsImporter
      (some contactsImporter,
        { s2 with trace := s2.trace ++ [Event.endInsertRows, Event.contactsImporterAdded contactsImporter] })
  else (none, s)

/-- Modelled from the spec: `ContactsImporterModel::setFields` on a row of the list (its body is
not part of the translated file): the object's fields become `data` and its `fieldsChanged`
signal reaches the list, which emits `contactsImporterUpdated`. -/
def setFields (s : ContactsImporterListModel) (p : Nat) (data : QVariantMap) :
    ContactsImporterListModel :=
  { s with
    heap := setObj s.heap p { s.heap p with mFields := data }
    trace := s.trace ++ [Event.contactsImporterUpdated p] }

/-- The method `ContactsImporterListModel::addContactsImporter (QVariantMap data, int pId)`. -/
def addContactsImporter (env : Env) (s : ContactsImporterListModel) (data : QVariantMap)
    (pId : Int) : Option Nat × ContactsImporterListModel :=
  match findContactsImporterModelFromId s pId with
  | some contactsImporter => (some contactsImporter, setFields s contactsImporter data)
  | none => createContactsImporter env s data

/-- The call `mList.indexOf(contactsImporter)`: the first row holding the pointer, `-1` if none does. -/
def qIndexOf (l : List Nat) (p : Nat) : Int :=
  if p ∈ l then (l.indexOf p : Int) else -1

/-- The method `ContactsImporterListModel::removeContactsImporter (ContactsImporterModel *)`. The decrement
cannot overflow: it runs only when the counter equals an identity that is `≥ 0`. -/
def removeContactsImporter (env : Env) (s : ContactsImporterListModel) (contactsImporter : Nat) :
    Option ContactsImporterListModel :=
  let index := qIndexOf s.mList contactsImporter
  if index ≥ 0 then
    let s1 :=
      if s.getIdentity contactsImporter ≥ 0 then
        let id := s.getIdentity contactsImporter
        let sec := env.ContactsSection ++ "_" ++ toString id
        let s0 := { s with trace := s.trace ++ [Event.cleanSection sec] }
        if id = s.mMaxContactsImporterId then
          { s0 with mMaxContactsImporterId := s.mMaxContactsImporterId - 1 }
        else s0
      else s
    (removeRow s1 index).map Prod.snd
  else some s

/-- The method `ContactsImporterListModel::importContacts (const int &pId)`; each call of an instance's
`importContacts()` is recorded in the trace. -/
def importContacts (s : ContactsImporterListModel) (pId : Int) : ContactsImporterListModel :=
  if pId ≥ 0 then
    match findContactsImporterModelFromId s pId with
    | some contactsImporter =>
      { s with trace := s.trace ++ [Event.importContacts contactsImporter] }
    | none => s
  else
    s.mList.foldl (fun st importer => { st with trace := st.trace ++ [Event.importContacts importer] }) s

/-! ## A sample environment -/

/-- Value of a string of decimal digits; `none` if it is empty or holds another character. -/
def digitsValue : List Char → Option Nat
  | [] => none
  | cs => cs.foldl (fun acc c =>
      match acc with
      | none => none
      | some n => if c.isDigit then some (10 * n + (c.toNat - 48)) else none) (some 0)

/-- Qt's `QString::toInt()` on strings made of an optional sign and decimal digits: the value if it
fits an `int`, `0` otherwise (the conversion failed). -/
def decimalToInt (str : String) : Int :=
  match str.data with
  | '-' :: ds =>
    match digitsValue ds with
    | some n => if n ≤ 2147483648 then -(n : Int) else 0
    | none => 0
  | '+' :: ds =>
    match digitsValue ds with
    | some n => if n ≤ 2147483647 then (n : Int) else 0
    | none => 0
  | ds =>
    match digitsValue ds with
    | some n => if n ≤ 2147483647 then (n : Int) else 0
    | none => 0

/-- The default values of the sample plugin: `host` and `port`. -/
def sampleDefaults : QVariantMap :=
  (QVariantMap.empty.insert "host" ⟨"localhost", 0⟩).insert "port" ⟨"389", 0⟩

/-- The sample plugin: its instances start with the fields `port` and `user`. -/
def samplePlugin : ContactsImporterPlugin :=
  ⟨(QVariantMap.empty.insert "port" ⟨"636", 0⟩).insert "user" ⟨"", 0⟩⟩

/-- An environment with one plugin, titled `X`, and section names `Contacts_<id>`. -/
def sampleEnv : Env :=
  { ContactsSection := "Contacts"
    gPluginsMap := fun t => t
    getPlugin := fun t => if t = "X" then some samplePlugin else none
    getDefaultValues := fun _ => sampleDefaults
    toInt := decimalToInt
    loadConfiguration := fun _ fields => fields }

/-- A configuration store with the given sections, each holding `pluginTitle = X`. -/
def sampleConfig (sections : List String) : Config :=
  { getSectionsNamesList := sections
    getKeysNamesList := fun _ => ["pluginTitle"]
    getString := fun _ _ _ => "X" }

/-- The fields `pluginTitle = X`, `user = alice`. -/
def sampleData : QVariantMap :=
  (QVariantMap.empty.insert "pluginTitle" ⟨"X", 0⟩).insert "user" ⟨"alice", 0⟩

/-! ## What the configuration scan accepts -/

/-- The separator the constructor splits section names at: `ContactsSection + "_"`. -/
def sectionSeparator (env : Env) : String := env.ContactsSection ++ "_"

/-- The identity the constructor reads from a section name: `parse[1].toInt()`. -/
def sectionId (env : Env) (sec : String) : Int :=
  env.toInt ((qSplit sec (sectionSeparator env)).getD 1 "")

/-- The constructor's test `parse.size() > 1`. -/
def hasSeparator (env : Env) (sec : String) : Bool :=
  decide ((qSplit sec (sectionSeparator env)).length > 1)

/-- The sections for which the constructor builds an instance: the name splits in more than one
part, the section has a `pluginTitle` key, and its title resolves to a plugin. -/
def producesInstance (env : Env) (config : Config) (sec : String) : Bool :=
  hasSeparator env sec && decide ("pluginTitle" ∈ config.getKeysNamesList sec) &&
    (env.getPlugin (env.gPluginsMap (config.getString sec "pluginTitle" ""))).isSome

/-- The identities of the instances the constructor builds, in enumeration order. -/
def instanceIds (env : Env) (config : Config) : List Int :=
  (config.getSectionsNamesList.filter (producesInstance env config)).map (sectionId env)

/-- The naming convention in the words of the specification: the section name is
`"<ContactsSection>_"` followed by a decimal identity (one or more digits). -/
def matchesSectionPattern (env : Env) (sec : String) : Bool :=
  (sectionSeparator env).data.isPrefixOf sec.data &&
    !(sec.data.drop (sectionSeparator env).data.length).isEmpty &&
    (sec.data.drop (sectionSeparator env).data.length).all Char.isDigit

/-! ## Sequences of calls -/

/-- A call of one of the mutating operations. -/
inductive Op where
  | create (data : QVariantMap)
  | upsert (data : QVariantMap) (pId : Int)
  | remove (contactsImporter : Nat)
  | removeRows (row count : Int)

/-- The state after a call (`none`: the call has no defined result). -/
def Op.run (env : Env) (s : ContactsImporterListModel) : Op → Option ContactsImporterListModel
  | Op.create data => some (createContactsImporter env s data).2
  | Op.upsert data pId => some (addContactsImporter env s data pId).2
  | Op.remove contactsImporter => removeContactsImporter env s contactsImporter
  | Op.removeRows row count => (ContactsImporter.removeRows s row count).map Prod.snd

/-- The fields `data` lead `createContactsImporter` to build an instance. -/
def createsInstance (env : Env) (data : QVariantMap) : Bool :=
  data.contains "pluginTitle" && (env.getPlugin (data.value "pluginTitle").toString).isSome

/-- The call does not increment the counter past `INT_MAX`. -/
def Op.noWrap (env : Env) (s : ContactsImporterListModel) : Op → Prop
  | Op.create data => createsInstance env data = true → s.mMaxContactsImporterId < INT_MAX
  | Op.upsert data pId =>
    findContactsImporterModelFromId s pId = none → createsInstance env data = true →
      s.mMaxContactsImporterId < INT_MAX
  | Op.remove _ => True
  | Op.removeRows _ _ => True

/-- The states reachable from construction over `config` by calls of the operations. -/
inductive Reachable (env : Env) (config : Config) : ContactsImporterListModel → Prop where
  | construct : Reachable env config (construct env config)
  | call (s s' : ContactsImporterListModel) (op : Op) :
      Reachable env config s → op.run env s = some s' → Reachable env config s'

/-- The states reachable from construction over `config` by calls none of which increments the
counter past `INT_MAX`. -/
inductive ReachableNoWrap (env : Env) (config : Config) : ContactsImporterListModel → Prop where
  | construct : ReachableNoWrap env config (construct env config)
  | call (s s' : ContactsImporterListModel) (op : Op) :
      ReachableNoWrap env config s → op.noWrap env s → op.run env s = some s' →
      ReachableNoWrap env config s'

/-- The counter bounds the rows: every row is an allocated object, the identities of the rows
are pairwise distinct, none exceeds the counter, and the counter is at least -1. -/
def CounterBounds (s : ContactsImporterListModel) : Prop :=
  (∀ p ∈ s.mList, p < s.next) ∧ s.identities.Nodup ∧
    (∀ p ∈ s.mList, s.getIdentity p ≤ s.mMaxContactsImporterId) ∧
    -1 ≤ s.mMaxContactsImporterId

/-- A configuration store with the sections `Contacts_0`, `Contacts_1`, `Contacts_2`. -/
def threeSections : Config := sampleConfig ["Contacts_0", "Contacts_1", "Contacts_2"]

/-- The list constructed over `threeSections`. -/
def threeRows : ContactsImporterListModel := construct sampleEnv threeSections

/-- The list constructed over the sections `Contacts_3` and `Contacts_03`, which both read as
identity 3. -/
def repeatedRows : ContactsImporterListModel :=
  construct sampleEnv (sampleConfig ["Contacts_3", "Contacts_03"])

/-- The list `threeRows` after one `createContactsImporter`. -/
def fourRows : ContactsImporterListModel := (createContactsImporter sampleEnv threeRows sampleData).2

/-- The list `threeRows` after `removeContactsImporter` of its last row. -/
def twoRows : ContactsImporterListModel :=
  { heap := threeRows.heap
    next := 3
    mList := [0, 1]
    mMaxContactsImporterId := 1
    trace := [Event.cleanSection "Contacts_2", Event.beginRemoveRows 2 2,
      Event.contactsImporterRemoved 2, Event.deleteLater 2, Event.endRemoveRows] }

/-! ## Theorems -/

theorem wrapInt_of_range (x : Int) (h1 : -2147483648 ≤ x) (h2 : x ≤ 2147483647) :
    wrapInt x = x := by
  unfold wrapInt
  omega

theorem wrapInt_lt (x : Int) : wrapInt x < 2147483648 := by
  unfold wrapInt
  omega

theorem wrapInt_succ_ge (x : Int) (h : x < 2147483647) : x ≤ wrapInt (x + 1) := by
  unfold wrapInt
  omega

theorem removeRowsLoop_spec (row : Nat) (n : Nat) :
    ∀ s : ContactsImporterListModel, row + n ≤ s.mList.length →
      removeRowsLoop row n s = some
        { s with
          mList := s.mList.take row ++ s.mList.drop (row + n)
          trace := s.trace ++ ((s.mList.drop row).take n).flatMap
            (fun p => [Event.contactsImporterRemoved p, Event.deleteLater p]) } := by
  induction n with
  | zero =>
    intro s _
    simp [removeRowsLoop]
  | succ n ih =>
    intro s h
    have hlt : row < s.mList.length := by omega
    have hget : s.mList.get? row = some (s.mList.get ⟨row, hlt⟩) := List.get?_eq_get hlt
    rw [removeRowsLoop, hget]
    simp only
    rw [ih]
    · have he : s.mList.eraseIdx row = s.mList.take row ++ s.mList.drop (row + 1) :=
        List.eraseIdx_eq_take_drop_succ _ _
      have hd : s.mList.drop row = s.mList.get ⟨row, hlt⟩ :: s.mList.drop (row + 1) :=
        (List.drop_eq_getElem_cons hlt)
      have hA : (s.mList.take row).length = row := by
        rw [List.length_take]; omega
      have h1 : List.take row (s.mList.take row ++ s.mList.drop (row + 1)) = s.mList.take row :=
        List.take_left' hA
      have h2 : List.drop row (s.mList.take row ++ s.mList.drop (row + 1))
          = s.mList.drop (row + 1) := List.drop_left' hA
      have h3 : List.drop (row + n) (s.mList.take row ++ s.mList.drop (row + 1))
          = s.mList.drop (row + (n + 1)) := by
        rw [← List.drop_drop, h2, List.drop_drop]
        congr 1
        omega
      simp only [he, hd, h1, h2, h3, List.take_succ_cons, List.flatMap_cons, List.append_assoc]
    · simp [List.length_eraseIdx, hlt]; omega


theorem removeRows_guard_false (s : ContactsImporterListModel) (row count : Int)
    (hrow : 0 ≤ row) (hcount : 0 ≤ count) (hlimit : row + count - 1 < rowCount s) :
    ¬ (row < 0 ∨ count < 0 ∨ wrapInt (row + count - 1) ≥ rowCount s) := by
  unfold rowCount at *
  have hw := wrapInt_lt (row + count - 1)
  by_cases hbig : row + count - 1 ≤ 2147483647
  · rw [wrapInt_of_range _ (by omega) hbig]
    omega
  · omega

theorem removeRows_in_range (s : ContactsImporterListModel) (row count : Int)
    (hrow : 0 ≤ row) (hcount : 0 ≤ count) (hlimit : row + count - 1 < rowCount s) :
    removeRows s row count = some (true,
      { s with
        mList := s.mList.take row.toNat ++ s.mList.drop (row.toNat + count.toNat)
        trace := s.trace ++ [Event.beginRemoveRows row (wrapInt (row + count - 1))]
          ++ ((s.mList.drop row.toNat).take count.toNat).flatMap
              (fun p => [Event.contactsImporterRemoved p, Event.deleteLater p])
          ++ [Event.endRemoveRows] }) := by
  have hguard := removeRows_guard_false s row count hrow hcount hlimit
  unfold rowCount at hlimit
  have hle : row.toNat + count.toNat ≤ s.mList.length := by omega
  have hloop := removeRowsLoop_spec row.toNat count.toNat
    { s with trace := s.trace ++ [Event.beginRemoveRows row (wrapInt (row + count - 1))] } hle
  simp only [removeRows, if_neg hguard, hloop]

/-- C2. A valid removal request (`row ≥ 0`, `count ≥ 0`, `row + count - 1 < size`) returns
true; the rows `row .. row+count-1` are deleted and the other rows keep their order, so the
length shrinks by `count`; between `beginRemoveRows` and `endRemoveRows` the removal
notification (followed by `deleteLater`) fires once per removed instance, in ascending original
row order; the objects and the counter are untouched. -/
theorem removeRows_valid (s : ContactsImporterListModel) (row count : Int)
    (hrow : 0 ≤ row) (hcount : 0 ≤ count) (hlimit : row + count - 1 < rowCount s) :
    ∃ s', removeRows s row count = some (true, s') ∧
      s'.mList = s.mList.take row.toNat ++ s.mList.drop (row.toNat + count.toNat) ∧
      (s'.mList.length : Int) = s.mList.length - count ∧
      s'.trace = s.trace ++ [Event.beginRemoveRows row (wrapInt (row + count - 1))]
        ++ ((s.mList.drop row.toNat).take count.toNat).flatMap
            (fun p => [Event.contactsImporterRemoved p, Event.deleteLater p])
        ++ [Event.endRemoveRows] ∧
      s'.mMaxContactsImporterId = s.mMaxContactsImporterId ∧
      s'.heap = s.heap ∧ s'.next = s.next := by
  have hguard : ¬ (row < 0 ∨ count < 0 ∨ wrapInt (row + count - 1) ≥ rowCount s) :=
    removeRows_guard_false s row count hrow hcount hlimit
  have hlen : row.toNat + count.toNat ≤ s.mList.length := by
    unfold rowCount at hlimit
    omega
  have hloop := removeRowsLoop_spec row.toNat count.toNat
    { s with trace := s.trace ++ [Event.beginRemoveRows row (wrapInt (row + count - 1))] } hlen
  refine ⟨{ s with
      mList := s.mList.take row.toNat ++ s.mList.drop (row.toNat + count.toNat)
      trace := s.trace ++ [Event.beginRemoveRows row (wrapInt (row + count - 1))]
        ++ ((s.mList.drop row.toNat).take count.toNat).flatMap
            (fun p => [Event.contactsImporterRemoved p, Event.deleteLater p])
        ++ [Event.endRemoveRows] }, ?_, rfl, ?_, rfl, rfl, rfl, rfl⟩
  · simp only [removeRows, if_neg hguard, hloop]
  · simp only [List.length_append, List.length_take, List.length_drop]
    omega

/-- C1, as amended. For `int` arguments whose sum `row + count - 1` does not exceed `INT_MAX`:
`removeRows` returns false exactly when `row < 0` or `count < 0` or `row + count - 1 >= size`
(and true otherwise), and when it returns false the whole state (rows and their order, counter,
objects, trace of notifications) is the one before the call. -/
theorem removeRows_false_iff (s : ContactsImporterListModel) (row count : Int)
    (hsum : row + count - 1 ≤ INT_MAX) :
    ((row < 0 ∨ count < 0 ∨ row + count - 1 ≥ rowCount s) ↔
        ∃ s', removeRows s row count = some (false, s')) ∧
    (¬ (row < 0 ∨ count < 0 ∨ row + count - 1 ≥ rowCount s) →
        ∃ s', removeRows s row count = some (true, s')) ∧
    (∀ s', removeRows s row count = some (false, s') → s' = s) := by
  unfold INT_MAX at hsum
  have hguard : (row < 0 ∨ count < 0 ∨ wrapInt (row + count - 1) ≥ rowCount s) ↔
      (row < 0 ∨ count < 0 ∨ row + count - 1 ≥ rowCount s) := by
    by_cases h1 : row < 0
    · simp [h1]
    · by_cases h2 : count < 0
      · simp [h2]
      · rw [wrapInt_of_range _ (by omega) hsum]
  have hvalid : ¬ (row < 0 ∨ count < 0 ∨ row + count - 1 ≥ rowCount s) →
      ∃ s', removeRows s row count = some (true, s') := by
    intro hn
    exact ⟨_, removeRows_in_range s row count (by omega) (by omega) (by omega)⟩
  refine ⟨⟨fun hc => ⟨s, ?_⟩, fun ⟨s', hs'⟩ => ?_⟩, hvalid, fun s' hs' => ?_⟩
  · simp only [removeRows, if_pos (hguard.2 hc)]
  · by_contra hn
    obtain ⟨s'', h⟩ := hvalid hn
    rw [h] at hs'
    simp at hs'
  · by_cases hc : row < 0 ∨ count < 0 ∨ row + count - 1 ≥ rowCount s
    · simp only [removeRows, if_pos (hguard.2 hc)] at hs'
      simp only [Option.some.injEq, Prod.mk.injEq, true_and] at hs'
      exact hs'.symm
    · obtain ⟨s'', h⟩ := hvalid hc
      rw [h] at hs'
      simp at hs'

/-- C2, at a concrete input: rows 1 and 2 of a three-row list. -/
theorem removeRows_valid_witness :
    ∃ s', removeRows threeRows 1 2 = some (true, s') ∧
      s'.mList = threeRows.mList.take (1 : Int).toNat
        ++ threeRows.mList.drop ((1 : Int).toNat + (2 : Int).toNat) ∧
      (s'.mList.length : Int) = threeRows.mList.length - 2 ∧
      s'.trace = threeRows.trace ++ [Event.beginRemoveRows 1 (wrapInt (1 + 2 - 1))]
        ++ ((threeRows.mList.drop (1 : Int).toNat).take (2 : Int).toNat).flatMap
            (fun p => [Event.contactsImporterRemoved p, Event.deleteLater p])
        ++ [Event.endRemoveRows] ∧
      s'.mMaxContactsImporterId = threeRows.mMaxContactsImporterId ∧
      s'.heap = threeRows.heap ∧ s'.next = threeRows.next :=
  removeRows_valid threeRows 1 2 (by decide) (by decide) (by decide)

/-- C1, as amended, at a concrete input: removing two rows from row 2 of a three-row list is
refused and leaves the state as it was. -/
theorem removeRows_false_witness :
    ∃ s', removeRows threeRows 2 2 = some (false, s') :=
  (removeRows_false_iff threeRows 2 2 (by decide)).1.1 (by decide)

/-- C1 fails as stated: `row = 2147483647`, `count = 2` are `int` values with `row >= 0`,
`count >= 0` and `row + count - 1 >= size`, yet the call does not return false: the sum wraps
to a negative `limit`, the guard lets the call through and the loop takes a row that does not
exist. -/
theorem removeRows_overflow_not_false :
    ((2147483647 : Int) + 2 - 1 ≥ rowCount emptyModel) ∧
    wrapInt (2147483647 + 2 - 1) = -2147483648 ∧
    removeRows emptyModel 2147483647 2 = none := by
  refine ⟨by decide, by decide, rfl⟩

/-! ### Field maps -/

theorem find?_insertEntry (k : String) (v : QVariant) (x : String) :
    ∀ l : List (String × QVariant),
      ((insertEntry k v l).find? (fun e => decide (e.1 = x))).map Prod.snd =
        if x = k then some v else (l.find? (fun e => decide (e.1 = x))).map Prod.snd := by
  intro l
  induction l with
  | nil =>
    by_cases hx : x = k
    · simp [insertEntry, hx]
    · have hx' : ¬ k = x := fun h => hx h.symm
      simp [insertEntry, hx, hx']
  | cons e rest ih =>
    obtain ⟨k', v'⟩ := e
    by_cases hk : k' = k
    · subst hk
      by_cases hx : x = k'
      · simp [insertEntry, hx]
      · have hx' : ¬ k' = x := fun h => hx h.symm
        simp [insertEntry, hx, hx']
    · by_cases hx : k' = x
      · subst hx
        simp [insertEntry, hk]
      · simp only [insertEntry, if_neg hk, List.find?_cons, hx, decide_False]
        exact ih

theorem mem_keys_insertEntry (k : String) (v : QVariant) (x : String) :
    ∀ l : List (String × QVariant),
      x ∈ (insertEntry k v l).map Prod.fst ↔ x = k ∨ x ∈ l.map Prod.fst := by
  intro l
  induction l with
  | nil => simp [insertEntry]
  | cons e rest ih =>
    obtain ⟨k', v'⟩ := e
    by_cases hk : k' = k
    · subst hk
      simp [insertEntry]
    · simp only [insertEntry, if_neg hk, List.map_cons, List.mem_cons, ih]
      tauto

theorem QVariantMap.find?_insert (m : QVariantMap) (k : String) (v : QVariant) (x : String) :
    (m.insert k v).find? x = if x = k then some v else m.find? x :=
  find?_insertEntry k v x m.entries

theorem QVariantMap.mem_keys_insert (m : QVariantMap) (k : String) (v : QVariant) (x : String) :
    x ∈ (m.insert k v).keys ↔ x = k ∨ x ∈ m.keys :=
  mem_keys_insertEntry k v x m.entries

theorem foldl_insert_find? (x : String) :
    ∀ (src : List (String × QVariant)) (dst : QVariantMap), (src.map Prod.fst).Nodup →
      (src.foldl (fun m f => m.insert f.1 f.2) dst).find? x =
        ((src.find? (fun e => decide (e.1 = x))).map Prod.snd).or (dst.find? x) := by
  intro src
  induction src with
  | nil => intro dst _; simp
  | cons e rest ih =>
    intro dst h
    obtain ⟨k, v⟩ := e
    simp only [List.map_cons, List.nodup_cons] at h
    simp only [List.foldl_cons]
    rw [ih _ h.2, QVariantMap.find?_insert]
    by_cases hx : x = k
    · subst hx
      have hnone : rest.find? (fun e => decide (e.1 = x)) = none := by
        rw [List.find?_eq_none]
        intro e he hdec
        exact h.1 (List.mem_map.2 ⟨e, he, by simpa using hdec⟩)
      simp [hnone]
    · have hx' : ¬ k = x := fun h => hx h.symm
      simp [hx, hx']

theorem foldl_insert_mem_keys (x : String) :
    ∀ (src : List (String × QVariant)) (dst : QVariantMap),
      x ∈ (src.foldl (fun m f => m.insert f.1 f.2) dst).keys ↔
        x ∈ src.map Prod.fst ∨ x ∈ dst.keys := by
  intro src
  induction src with
  | nil => intro dst; simp
  | cons e rest ih =>
    intro dst
    simp only [List.foldl_cons, ih, QVariantMap.mem_keys_insert, List.map_cons, List.mem_cons]
    tauto

theorem QVariantMap.find?_overlay (dst src : QVariantMap) (x : String) :
    (dst.overlay src).find? x = (src.find? x).or (dst.find? x) :=
  foldl_insert_find? x src.entries dst src.nodupKeys

theorem QVariantMap.mem_keys_overlay (dst src : QVariantMap) (x : String) :
    x ∈ (dst.overlay src).keys ↔ x ∈ src.keys ∨ x ∈ dst.keys :=
  foldl_insert_mem_keys x src.entries dst

theorem QVariantMap.mem_keys_iff (m : QVariantMap) (x : String) :
    x ∈ m.keys ↔ (m.find? x).isSome = true := by
  unfold QVariantMap.keys QVariantMap.find?
  simp only [Option.isSome_map', List.find?_isSome, List.mem_map]
  constructor
  · rintro ⟨e, he, rfl⟩
    exact ⟨e, he, by simp⟩
  · rintro ⟨e, he, h⟩
    exact ⟨e, he, by simpa using h⟩

theorem QVariantMap.find?_eq_none_iff (m : QVariantMap) (x : String) :
    m.find? x = none ↔ x ∉ m.keys := by
  rw [QVariantMap.mem_keys_iff]
  cases m.find? x <;> simp

theorem createNewData_find? (env : Env) (plugin : ContactsImporterPlugin) (title : String)
    (data : QVariantMap) (k : String) :
    (k ∈ data.keys → (createNewData env plugin title data).find? k = data.find? k) ∧
    (k ∉ data.keys → k ∈ plugin.instanceFields.keys →
      (createNewData env plugin title data).find? k = plugin.instanceFields.find? k) ∧
    (k ∉ data.keys → k ∉ plugin.instanceFields.keys →
      (createNewData env plugin title data).find? k = (env.getDefaultValues title).find? k) := by
  simp only [createNewData, QVariantMap.find?_overlay]
  refine ⟨fun h => ?_, fun h1 h2 => ?_, fun h1 h2 => ?_⟩
  · rw [QVariantMap.mem_keys_iff] at h
    cases hd : data.find? k with
    | none => rw [hd] at h; simp at h
    | some v => simp
  · rw [(QVariantMap.find?_eq_none_iff data k).2 h1]
    rw [QVariantMap.mem_keys_iff] at h2
    cases hd : plugin.instanceFields.find? k with
    | none => rw [hd] at h2; simp at h2
    | some v => simp
  · rw [(QVariantMap.find?_eq_none_iff data k).2 h1,
      (QVariantMap.find?_eq_none_iff plugin.instanceFields k).2 h2]
    simp

/-! ### createContactsImporter -/

theorem createContactsImporter_resolved (env : Env) (s : ContactsImporterListModel)
    (data : QVariantMap) (plugin : ContactsImporterPlugin)
    (htitle : data.contains "pluginTitle" = true)
    (hplugin : env.getPlugin (data.value "pluginTitle").toString = some plugin) :
    createContactsImporter env s data = (some s.next,
      { heap := setObj s.heap s.next
          { mIdentity := wrapInt (s.mMaxContactsImporterId + 1)
            mFields := createNewData env plugin (data.value "pluginTitle").toString data }
        next := s.next + 1
        mList := s.mList ++ [s.next]
        mMaxContactsImporterId := wrapInt (s.mMaxContactsImporterId + 1)
        trace := s.trace ++ [Event.beginInsertRows (rowCount s) (rowCount s)]
          ++ [Event.endInsertRows, Event.contactsImporterAdded s.next] }) := by
  simp only [createContactsImporter, htitle, hplugin, addContactsImporterModel, if_true]

theorem createContactsImporter_unresolved (env : Env) (s : ContactsImporterListModel)
    (data : QVariantMap) (h : createsInstance env data = false) :
    createContactsImporter env s data = (none, s) := by
  unfold createsInstance at h
  unfold createContactsImporter
  by_cases hc : data.contains "pluginTitle" = true
  · rw [if_pos hc]
    cases hp : env.getPlugin (data.value "pluginTitle").toString with
    | none => rfl
    | some plugin => simp [hc, hp] at h
  · rw [if_neg hc]

/-- C9. When `pluginTitle` resolves, the field map given to the created instance is the
plugin's default values overlaid by the instance's own fields overlaid by the caller's fields:
each key reads the caller's value if the caller has the key, else the instance's value if the
instance has it, else the plugin default; its keys are the union of the three key sets. -/
theorem createContactsImporter_fields (env : Env) (s : ContactsImporterListModel)
    (data : QVariantMap) (plugin : ContactsImporterPlugin)
    (htitle : data.contains "pluginTitle" = true)
    (hplugin : env.getPlugin (data.value "pluginTitle").toString = some plugin) :
    ∃ p s', createContactsImporter env s data = (some p, s') ∧
      (s'.heap p).mFields =
        createNewData env plugin (data.value "pluginTitle").toString data ∧
      (∀ k, k ∈ data.keys → (s'.heap p).mFields.find? k = data.find? k) ∧
      (∀ k, k ∉ data.keys → k ∈ plugin.instanceFields.keys →
        (s'.heap p).mFields.find? k = plugin.instanceFields.find? k) ∧
      (∀ k, k ∉ data.keys → k ∉ plugin.instanceFields.keys →
        (s'.heap p).mFields.find? k =
          (env.getDefaultValues (data.value "pluginTitle").toString).find? k) ∧
      (∀ k, k ∈ (s'.heap p).mFields.keys ↔
        k ∈ data.keys ∨ k ∈ plugin.instanceFields.keys ∨
          k ∈ (env.getDefaultValues (data.value "pluginTitle").toString).keys) := by
  have hfields : (setObj s.heap s.next
      { mIdentity := wrapInt (s.mMaxContactsImporterId + 1)
        mFields := createNewData env plugin (data.value "pluginTitle").toString data }
      s.next).mFields = createNewData env plugin (data.value "pluginTitle").toString data := by
    simp [setObj]
  refine ⟨_, _, createContactsImporter_resolved env s data plugin htitle hplugin,
    hfields, ?_, ?_, ?_, ?_⟩
  · intro k hk
    simp only [hfields]
    exact (createNewData_find? env plugin _ data k).1 hk
  · intro k h1 h2
    simp only [hfields]
    exact (createNewData_find? env plugin _ data k).2.1 h1 h2
  · intro k h1 h2
    simp only [hfields]
    exact (createNewData_find? env plugin _ data k).2.2 h1 h2
  · intro k
    simp only [hfields]
    simp only [createNewData, QVariantMap.mem_keys_overlay]

/-- C9, at a concrete input: the sample plugin (defaults `host`, `port`; instance fields
`port`, `user`) and the caller's fields `pluginTitle`, `user`. -/
theorem createContactsImporter_fields_witness :
    ∃ p s', createContactsImporter sampleEnv emptyModel sampleData = (some p, s') ∧
      (s'.heap p).mFields =
        createNewData sampleEnv samplePlugin (sampleData.value "pluginTitle").toString
          sampleData ∧
      (∀ k, k ∈ sampleData.keys → (s'.heap p).mFields.find? k = sampleData.find? k) ∧
      (∀ k, k ∉ sampleData.keys → k ∈ samplePlugin.instanceFields.keys →
        (s'.heap p).mFields.find? k = samplePlugin.instanceFields.find? k) ∧
      (∀ k, k ∉ sampleData.keys → k ∉ samplePlugin.instanceFields.keys →
        (s'.heap p).mFields.find? k =
          (sampleEnv.getDefaultValues (sampleData.value "pluginTitle").toString).find? k) ∧
      (∀ k, k ∈ (s'.heap p).mFields.keys ↔
        k ∈ sampleData.keys ∨ k ∈ samplePlugin.instanceFields.keys ∨
          k ∈ (sampleEnv.getDefaultValues (sampleData.value "pluginTitle").toString).keys) :=
  createContactsImporter_fields sampleEnv emptyModel sampleData samplePlugin (by decide) rfl

/-- C3 fails as stated: over the sections `Contacts_1` and `Contacts_01` the constructor builds
two rows with identity 1; removing the first leaves the row with identity 1 and the counter at
0, and the instance then created gets identity 1, not strictly greater than that row's. -/
theorem createContactsImporter_identity_not_above :
    (removeContactsImporter sampleEnv
        (construct sampleEnv (sampleConfig ["Contacts_1", "Contacts_01"])) 0).map
      (fun s => (s.identities, s.mMaxContactsImporterId,
        (createContactsImporter sampleEnv s sampleData).2.identities)) =
      some ([1], 0, [1, 1]) := by
  decide

/-! ### removeContactsImporter -/

theorem indexOf_split (p : Nat) :
    ∀ l : List Nat, p ∈ l →
      ∃ pre post, l = pre ++ p :: post ∧ p ∉ pre ∧ List.indexOf p l = pre.length := by
  intro l
  induction l with
  | nil => intro h; simp at h
  | cons a rest ih =>
    intro h
    by_cases ha : a = p
    · subst ha
      exact ⟨[], rest, rfl, by simp, by simp⟩
    · have hrest : p ∈ rest := by
        rcases List.mem_cons.1 h with h1 | h1
        · exact absurd h1.symm ha
        · exact h1
      obtain ⟨pre, post, h1, h2, h3⟩ := ih hrest
      refine ⟨a :: pre, post, by simp [h1], ?_, ?_⟩
      · simp only [List.mem_cons, not_or]
        exact ⟨fun h => ha h.symm, h2⟩
      · rw [List.indexOf_cons_ne _ ha, h3]
        simp

theorem qIndexOf_of_not_mem (l : List Nat) (p : Nat) (h : p ∉ l) : qIndexOf l p = -1 := by
  simp [qIndexOf, h]

theorem qIndexOf_of_mem (l : List Nat) (p : Nat) (h : p ∈ l) :
    qIndexOf l p = (List.indexOf p l : Int) := by
  simp [qIndexOf, h]

theorem removeContactsImporter_not_mem (env : Env) (s : ContactsImporterListModel) (p : Nat)
    (h : p ∉ s.mList) : removeContactsImporter env s p = some s := by
  simp [removeContactsImporter, qIndexOf_of_not_mem _ _ h]

theorem removeContactsImporter_mem (env : Env) (s : ContactsImporterListModel) (p : Nat)
    (h : p ∈ s.mList) :
    ∃ s' pre post, removeContactsImporter env s p = some s' ∧
      s.mList = pre ++ p :: post ∧ p ∉ pre ∧ s'.mList = pre ++ post ∧
      s'.heap = s.heap ∧ s'.next = s.next ∧
      s'.mMaxContactsImporterId =
        (if 0 ≤ s.getIdentity p ∧ s.getIdentity p = s.mMaxContactsImporterId
          then s.mMaxContactsImporterId - 1 else s.mMaxContactsImporterId) := by
  obtain ⟨pre, post, hl, hpre, hidx⟩ := indexOf_split p s.mList h
  have hq : qIndexOf s.mList p = (pre.length : Int) := by
    rw [qIndexOf_of_mem _ _ h, hidx]
  have key : ∀ s1 : ContactsImporterListModel, s1.mList = s.mList →
      ∃ s', (removeRow s1 (pre.length : Int)).map Prod.snd = some s' ∧
        s'.mList = pre ++ post ∧ s'.heap = s1.heap ∧ s'.next = s1.next ∧
        s'.mMaxContactsImporterId = s1.mMaxContactsImporterId := by
    intro s1 h1
    have hlen : ((pre.length : Int)) + 1 - 1 < rowCount s1 := by
      unfold rowCount
      rw [h1, hl]
      simp only [List.length_append, List.length_cons]
      omega
    have hr := removeRows_in_range s1 (pre.length : Int) 1 (by omega) (by omega) hlen
    rw [removeRow, hr]
    exact ⟨_, rfl, by simp [h1, hl], rfl, rfl, rfl⟩
  unfold removeContactsImporter
  simp only [hq]
  have hge : ((pre.length : Int)) ≥ 0 := by omega
  simp only [hge, if_true]
  by_cases hid : s.getIdentity p ≥ 0
  · by_cases hmax : s.getIdentity p = s.mMaxContactsImporterId
    · rw [if_pos hid]
      simp only [if_pos hmax]
      obtain ⟨s', h1, h2, h3, h4, h5⟩ := key
        { s with
          mMaxContactsImporterId := s.mMaxContactsImporterId - 1
          trace := s.trace ++ [Event.cleanSection
            (env.ContactsSection ++ "_" ++ toString (s.getIdentity p))] } rfl
      refine ⟨s', pre, post, h1, hl, hpre, h2, h3, h4, ?_⟩
      rw [h5, if_pos ⟨hid, hmax⟩]
    · rw [if_pos hid]
      simp only [if_neg hmax]
      obtain ⟨s', h1, h2, h3, h4, h5⟩ := key
        { s with
          trace := s.trace ++ [Event.cleanSection
            (env.ContactsSection ++ "_" ++ toString (s.getIdentity p))] } rfl
      refine ⟨s', pre, post, h1, hl, hpre, h2, h3, h4, ?_⟩
      rw [h5, if_neg (fun hc => hmax hc.2)]
  · rw [if_neg hid]
    obtain ⟨s', h1, h2, h3, h4, h5⟩ := key s rfl
    refine ⟨s', pre, post, h1, hl, hpre, h2, h3, h4, ?_⟩
    rw [h5, if_neg (fun hc => hid hc.1)]

/-- C4, as amended. `removeContactsImporter` on a row of the list whose identity is
non-negative and equal to the counter decreases the counter by exactly one; in every other case
(the instance is not a row of the list, or its identity is negative, or its identity differs
from the counter) the counter is unchanged. -/
theorem removeContactsImporter_counter (env : Env) (s : ContactsImporterListModel) (p : Nat) :
    (p ∈ s.mList ∧ 0 ≤ s.getIdentity p ∧ s.getIdentity p = s.mMaxContactsImporterId →
      ∃ s', removeContactsImporter env s p = some s' ∧
        s'.mMaxContactsImporterId = s.mMaxContactsImporterId - 1) ∧
    (p ∉ s.mList ∨ s.getIdentity p < 0 ∨ s.getIdentity p ≠ s.mMaxContactsImporterId →
      ∃ s', removeContactsImporter env s p = some s' ∧
        s'.mMaxContactsImporterId = s.mMaxContactsImporterId) := by
  constructor
  · rintro ⟨hmem, hid, hmax⟩
    obtain ⟨s', _, _, h1, _, _, _, _, _, h2⟩ := removeContactsImporter_mem env s p hmem
    refine ⟨s', h1, ?_⟩
    rw [h2, if_pos ⟨hid, hmax⟩]
  · intro h
    by_cases hmem : p ∈ s.mList
    · obtain ⟨s', _, _, h1, _, _, _, _, _, h2⟩ := removeContactsImporter_mem env s p hmem
      refine ⟨s', h1, ?_⟩
      rw [h2, if_neg]
      rintro ⟨hid, hmax⟩
      rcases h with h | h | h
      · exact h hmem
      · omega
      · exact h hmax
    · exact ⟨s, removeContactsImporter_not_mem env s p hmem, rfl⟩

/-- C4 fails as stated: over the section `Contacts_-1` the constructor builds one row with
identity -1 and leaves the counter at -1; removing that row, whose identity equals the counter,
leaves the counter at -1 instead of decreasing it by one. -/
theorem removeContactsImporter_counter_not_decreased :
    (construct sampleEnv (sampleConfig ["Contacts_-1"])).mList = [0] ∧
    (construct sampleEnv (sampleConfig ["Contacts_-1"])).getIdentity 0 = -1 ∧
    (construct sampleEnv (sampleConfig ["Contacts_-1"])).mMaxContactsImporterId = -1 ∧
    (removeContactsImporter sampleEnv
        (construct sampleEnv (sampleConfig ["Contacts_-1"])) 0).map
      (fun s => (s.mList, s.mMaxContactsImporterId)) = some ([], -1) := by
  decide

/-! ### findContactsImporterModelFromId, importContacts, addContactsImporter -/

theorem findContactsImporterModelFromId_present (s : ContactsImporterListModel) (id : Int)
    (h : ∃ p ∈ s.mList, s.getIdentity p = id) :
    ∃ q pre post, findContactsImporterModelFromId s id = some q ∧
      s.mList = pre ++ q :: post ∧ s.getIdentity q = id ∧
      ∀ r ∈ pre, s.getIdentity r ≠ id := by
  obtain ⟨p, hp, hid⟩ := h
  cases hf : findContactsImporterModelFromId s id with
  | none =>
    unfold findContactsImporterModelFromId at hf
    rw [List.find?_eq_none] at hf
    exact absurd (by simpa using hid) (hf p hp)
  | some q =>
    unfold findContactsImporterModelFromId at hf
    rw [List.find?_eq_some] at hf
    obtain ⟨hq, pre, post, hl, hpre⟩ := hf
    refine ⟨q, pre, post, rfl, hl, by simpa using hq, fun r hr => ?_⟩
    simpa using hpre r hr

theorem findContactsImporterModelFromId_absent (s : ContactsImporterListModel) (id : Int)
    (h : ∀ p ∈ s.mList, s.getIdentity p ≠ id) :
    findContactsImporterModelFromId s id = none := by
  unfold findContactsImporterModelFromId
  rw [List.find?_eq_none]
  intro p hp
  simpa using h p hp

theorem importContacts_foldl (l : List Nat) :
    ∀ s : ContactsImporterListModel,
      l.foldl (fun st importer =>
          { st with trace := st.trace ++ [Event.importContacts importer] }) s =
        { s with trace := s.trace ++ l.map Event.importContacts } := by
  induction l with
  | nil => intro s; simp
  | cons a rest ih =>
    intro s
    simp only [List.foldl_cons, ih, List.map_cons, List.append_assoc, List.singleton_append]

/-- C5, as amended. `importContacts(-1)` calls the import operation of every row exactly
once, in row order; `importContacts(id)` with `id >= 0` the identity of a row calls it exactly
once, on the first row (in row order) with that identity and on no other, which is the row
itself when no other row has its identity; with `id >= 0` the identity of no row it calls
nothing. Nothing else changes. -/
theorem importContacts_dispatch (s : ContactsImporterListModel) :
    importContacts s (-1) = { s with trace := s.trace ++ s.mList.map Event.importContacts } ∧
    (∀ id : Int, 0 ≤ id → (∃ p ∈ s.mList, s.getIdentity p = id) →
      ∃ q pre post, s.mList = pre ++ q :: post ∧ s.getIdentity q = id ∧
        (∀ r ∈ pre, s.getIdentity r ≠ id) ∧
        importContacts s id = { s with trace := s.trace ++ [Event.importContacts q] }) ∧
    (∀ id : Int, 0 ≤ id → ∀ p ∈ s.mList, s.getIdentity p = id →
      (∀ r ∈ s.mList, s.getIdentity r = id → r = p) →
      importContacts s id = { s with trace := s.trace ++ [Event.importContacts p] }) ∧
    (∀ id : Int, 0 ≤ id → (∀ p ∈ s.mList, s.getIdentity p ≠ id) →
      importContacts s id = s) := by
  refine ⟨?_, ?_, ?_, ?_⟩
  · have h : ¬ ((-1 : Int) ≥ 0) := by decide
    simp only [importContacts, if_neg h, importContacts_foldl]
  · intro id hid hex
    obtain ⟨q, pre, post, hf, hl, hq, hpre⟩ := findContactsImporterModelFromId_present s id hex
    refine ⟨q, pre, post, hl, hq, hpre, ?_⟩
    have h : id ≥ 0 := hid
    simp only [importContacts, if_pos h, hf]
  · intro id hid p hp hpid honly
    obtain ⟨q, pre, post, hf, hl, hq, _⟩ :=
      findContactsImporterModelFromId_present s id ⟨p, hp, hpid⟩
    have hqmem : q ∈ s.mList := by
      rw [hl]
      simp
    have hqp : q = p := honly q hqmem hq
    have h : id ≥ 0 := hid
    simp only [importContacts, if_pos h, hf, hqp]
  · intro id hid hnone
    have h : id ≥ 0 := hid
    simp only [importContacts, if_pos h, findContactsImporterModelFromId_absent s id hnone]

/-- C5, as amended, at a concrete input: on a three-row list with identities 0, 1, 2,
`importContacts(-1)` calls every row in order, `importContacts(1)` calls row 1 only and
`importContacts(7)` calls nothing. -/
theorem importContacts_dispatch_witness :
    importContacts threeRows (-1)
      = { threeRows with trace := threeRows.trace ++ threeRows.mList.map Event.importContacts } ∧
    importContacts threeRows 1
      = { threeRows with trace := threeRows.trace ++ [Event.importContacts 1] } ∧
    importContacts threeRows 7 = threeRows :=
  ⟨(importContacts_dispatch threeRows).1,
    (importContacts_dispatch threeRows).2.2.1 1 (by decide) 1 (by decide) (by decide)
      (by decide),
    (importContacts_dispatch threeRows).2.2.2 7 (by decide) (by decide)⟩

/-- C5 fails as stated: over the sections `Contacts_4` and `Contacts_04` the constructed list
has two rows with identity 4; `importContacts(4)` calls the import operation of row 0 only, so
row 1, an instance of the list whose identity is 4, is not called. -/
theorem importContacts_skips_later_row :
    (construct sampleEnv (sampleConfig ["Contacts_4", "Contacts_04"])).mList = [0, 1] ∧
    (construct sampleEnv (sampleConfig ["Contacts_4", "Contacts_04"])).getIdentity 1 = 4 ∧
    (importContacts (construct sampleEnv (sampleConfig ["Contacts_4", "Contacts_04"])) 4).trace
      = [Event.importContacts 0] := by
  decide

/-- C6. `addContactsImporter(data, id)` with `id` the identity of a row returns the first row
with that identity, whose fields are now `data`; the rows, their order and number, every
identity, every other object and the counter are unchanged, and the only thing emitted is one
`contactsImporterUpdated` for that row (no insert or remove notification, no added event). -/
theorem addContactsImporter_existing (env : Env) (s : ContactsImporterListModel)
    (data : QVariantMap) (id : Int) (h : ∃ p ∈ s.mList, s.getIdentity p = id) :
    ∃ q pre post s', s.mList = pre ++ q :: post ∧ s.getIdentity q = id ∧
      (∀ r ∈ pre, s.getIdentity r ≠ id) ∧
      addContactsImporter env s data id = (some q, s') ∧
      (s'.heap q).mFields = data ∧
      (∀ r, r ≠ q → s'.heap r = s.heap r) ∧
      (∀ r, s'.getIdentity r = s.getIdentity r) ∧
      s'.mList = s.mList ∧ s'.mList.length = s.mList.length ∧
      s'.mMaxContactsImporterId = s.mMaxContactsImporterId ∧
      s'.next = s.next ∧
      s'.trace = s.trace ++ [Event.contactsImporterUpdated q] := by
  obtain ⟨q, pre, post, hf, hl, hq, hpre⟩ := findContactsImporterModelFromId_present s id h
  refine ⟨q, pre, post, setFields s q data, hl, hq, hpre, ?_, ?_, ?_, ?_, rfl, rfl, rfl, rfl, rfl⟩
  · simp only [addContactsImporter, hf]
  · simp [setFields, setObj]
  · intro r hr
    simp [setFields, setObj, hr]
  · intro r
    by_cases hr : r = q
    · subst hr
      simp [setFields, setObj, ContactsImporterListModel.getIdentity]
    · simp [setFields, setObj, ContactsImporterListModel.getIdentity, hr]

/-- C6, at a concrete input: new fields for the row with identity 1 of a three-row list. -/
theorem addContactsImporter_existing_witness :
    ∃ q pre post s', threeRows.mList = pre ++ q :: post ∧ threeRows.getIdentity q = 1 ∧
      (∀ r ∈ pre, threeRows.getIdentity r ≠ 1) ∧
      addContactsImporter sampleEnv threeRows sampleData 1 = (some q, s') ∧
      (s'.heap q).mFields = sampleData ∧
      (∀ r, r ≠ q → s'.heap r = threeRows.heap r) ∧
      (∀ r, s'.getIdentity r = threeRows.getIdentity r) ∧
      s'.mList = threeRows.mList ∧ s'.mList.length = threeRows.mList.length ∧
      s'.mMaxContactsImporterId = threeRows.mMaxContactsImporterId ∧
      s'.next = threeRows.next ∧
      s'.trace = threeRows.trace ++ [Event.contactsImporterUpdated q] :=
  addContactsImporter_existing sampleEnv threeRows sampleData 1 ⟨1, by decide, by decide⟩

/-! ### QString::split -/

theorem splitAux_ne_nil (sep : List Char) :
    ∀ (l : List Char) (skip : Nat) (cur : List Char), splitAux sep l skip cur ≠ [] := by
  intro l
  induction l with
  | nil => intro skip cur; simp [splitAux]
  | cons c cs ih =>
    intro skip cur
    cases skip with
    | succ k => simpa [splitAux] using ih k cur
    | zero =>
      by_cases hp : sep.isPrefixOf (c :: cs) = true
      · simp [splitAux, hp]
      · simpa [splitAux, hp] using ih 0 (c :: cur)

theorem splitAux_skip (sep : List Char) :
    ∀ (a l cur : List Char), splitAux sep (a ++ l) a.length cur = splitAux sep l 0 cur := by
  intro a
  induction a with
  | nil => intro l cur; rfl
  | cons x a ih =>
    intro l cur
    simpa [splitAux] using ih l cur

theorem splitAux_of_not_contains (sep : List Char) :
    ∀ (l cur : List Char), ¬ sep <:+: l → splitAux sep l 0 cur = [cur.reverse ++ l] := by
  intro l
  induction l with
  | nil => intro cur _; simp [splitAux]
  | cons c cs ih =>
    intro cur h
    rw [List.infix_cons_iff, not_or] at h
    have hp : ¬ (sep.isPrefixOf (c :: cs) = true) := fun hc => h.1 (List.isPrefixOf_iff_prefix.1 hc)
    simp only [splitAux, hp, if_false]
    rw [ih (c :: cur) h.2]
    simp

theorem splitAux_of_contains (sep : List Char) (hsep : sep ≠ []) :
    ∀ (l cur : List Char), sep <:+: l → 1 < (splitAux sep l 0 cur).length := by
  intro l
  induction l with
  | nil =>
    intro cur h
    exact absurd (List.infix_nil.1 h) hsep
  | cons c cs ih =>
    intro cur h
    by_cases hp : sep.isPrefixOf (c :: cs) = true
    · have hne := splitAux_ne_nil sep cs (sep.length - 1) []
      have hpos : 0 < (splitAux sep cs (sep.length - 1) []).length := List.length_pos.2 hne
      simp only [splitAux, hp, if_true, List.length_cons]
      omega
    · have hin : sep <:+: cs := by
        rcases List.infix_cons_iff.1 h with h1 | h1
        · exact absurd (List.isPrefixOf_iff_prefix.2 h1) hp
        · exact h1
      simpa [splitAux, hp] using ih (c :: cur) hin

theorem sectionSeparator_ne_nil (env : Env) : (sectionSeparator env).data ≠ [] := by
  simp [sectionSeparator]

/-- The constructor's test `parse.size() > 1` holds exactly for the section names that contain
`ContactsSection + "_"` somewhere. -/
theorem hasSeparator_iff (env : Env) (sec : String) :
    hasSeparator env sec = true ↔ (sectionSeparator env).data <:+: sec.data := by
  unfold hasSeparator qSplit
  simp only [List.length_map, decide_eq_true_eq, gt_iff_lt]
  constructor
  · intro h
    by_contra hn
    rw [splitAux_of_not_contains _ _ _ hn] at h
    simp at h
  · exact splitAux_of_contains _ (sectionSeparator_ne_nil env) _ _

/-- A section named `ContactsSection + "_" + rest`, with `rest` free of the separator, splits
into an empty part and `rest`: the identity read from it is `rest.toInt()`. -/
theorem sectionId_of_prefixed (env : Env) (rest : String)
    (h : ¬ (sectionSeparator env).data <:+: rest.data) :
    hasSeparator env (sectionSeparator env ++ rest) = true ∧
      sectionId env (sectionSeparator env ++ rest) = env.toInt rest := by
  have hs : qSplit (sectionSeparator env ++ rest) (sectionSeparator env) = ["", rest] := by
    unfold qSplit
    have h1 : (sectionSeparator env ++ rest).data
        = (sectionSeparator env).data ++ rest.data := by simp
    have hne := sectionSeparator_ne_nil env
    rw [h1]
    cases hd : (sectionSeparator env).data with
    | nil => exact absurd hd hne
    | cons c cs =>
      have hp : (c :: cs).isPrefixOf (c :: (cs ++ rest.data)) = true :=
        List.isPrefixOf_iff_prefix.2 ⟨rest.data, by simp⟩
      rw [hd] at h
      have e1 : splitAux (c :: cs) (c :: (cs ++ rest.data)) 0 []
          = [] :: splitAux (c :: cs) (cs ++ rest.data) cs.length [] := by
        rw [splitAux, if_pos hp]
        simp
      rw [List.cons_append, e1, splitAux_skip, splitAux_of_not_contains _ _ _ h]
      simp
  refine ⟨?_, ?_⟩
  · simp [hasSeparator, hs]
  · simp [sectionId, hs]

theorem splitAux_first (sep : List Char) (hsep : sep ≠ []) (b : List Char) :
    ∀ (a cur : List Char), ¬ sep <:+: a ++ sep.dropLast →
      splitAux sep (a ++ sep ++ b) 0 cur = (cur.reverse ++ a) :: splitAux sep b 0 [] := by
  intro a
  induction a with
  | nil =>
    intro cur _
    cases hd : sep with
    | nil => exact absurd hd hsep
    | cons c cs =>
      have hp : (c :: cs).isPrefixOf (c :: (cs ++ b)) = true :=
        List.isPrefixOf_iff_prefix.2 ⟨b, by simp⟩
      have e1 : splitAux (c :: cs) (c :: (cs ++ b)) 0 cur
          = cur.reverse :: splitAux (c :: cs) (cs ++ b) cs.length [] := by
        rw [splitAux, if_pos hp]
        simp
      rw [List.nil_append, List.cons_append, e1, splitAux_skip]
      simp
  | cons x a ih =>
    intro cur h
    have hnp : ¬ (sep.isPrefixOf (x :: (a ++ sep ++ b)) = true) := by
      intro hc
      have hp1 : sep <+: x :: (a ++ sep ++ b) := List.isPrefixOf_iff_prefix.1 hc
      have hsplit : sep.dropLast ++ [sep.getLast hsep] = sep := List.dropLast_concat_getLast hsep
      have hp2 : (x :: a ++ sep.dropLast) <+: x :: (a ++ sep ++ b) := by
        refine ⟨[sep.getLast hsep] ++ b, ?_⟩
        conv_rhs => rw [← hsplit]
        simp
      have hlen : sep.length ≤ (x :: a ++ sep.dropLast).length := by
        simp only [List.cons_append, List.length_cons, List.length_append, List.length_dropLast]
        have : 0 < sep.length := List.length_pos.2 hsep
        omega
      obtain ⟨t, ht⟩ := List.prefix_of_prefix_length_le hp1 hp2 hlen
      exact h ⟨[], t, by simpa using ht⟩
    have hrest : ¬ sep <:+: a ++ sep.dropLast := by
      intro hc
      apply h
      rw [List.cons_append]
      exact List.infix_cons hc
    have e2 : splitAux sep (x :: (a ++ sep ++ b)) 0 cur
        = splitAux sep (a ++ sep ++ b) 0 (x :: cur) := by
      rw [splitAux, if_neg hnp]
    rw [List.cons_append, List.cons_append, e2, ih (x :: cur) hrest]
    simp

/-- The identity read from a section name is `toInt()` of the text between the first
occurrence of the separator and the next one (or the end of the name). -/
theorem sectionId_between (env : Env) (a c : String)
    (ha : ¬ (sectionSeparator env).data <:+: a.data ++ (sectionSeparator env).data.dropLast) :
    (¬ (sectionSeparator env).data <:+: c.data →
      sectionId env (a ++ sectionSeparator env ++ c) = env.toInt c) ∧
    (∀ d : String,
      ¬ (sectionSeparator env).data <:+: c.data ++ (sectionSeparator env).data.dropLast →
      sectionId env (a ++ sectionSeparator env ++ c ++ sectionSeparator env ++ d)
        = env.toInt c) := by
  have hne := sectionSeparator_ne_nil env
  constructor
  · intro hc
    have hs : qSplit (a ++ sectionSeparator env ++ c) (sectionSeparator env) = [a, c] := by
      unfold qSplit
      have h1 : (a ++ sectionSeparator env ++ c).data
          = a.data ++ (sectionSeparator env).data ++ c.data := by simp
      rw [h1, splitAux_first _ hne _ _ _ ha, splitAux_of_not_contains _ _ _ hc]
      simp
    simp [sectionId, hs]
  · intro d hc
    have hs : ∃ rest, qSplit (a ++ sectionSeparator env ++ c ++ sectionSeparator env ++ d)
        (sectionSeparator env) = a :: c :: rest := by
      unfold qSplit
      have h1 : (a ++ sectionSeparator env ++ c ++ sectionSeparator env ++ d).data
          = a.data ++ (sectionSeparator env).data
            ++ (c.data ++ (sectionSeparator env).data ++ d.data) := by simp
      rw [h1, splitAux_first _ hne _ _ _ ha, splitAux_first _ hne _ _ _ hc]
      exact ⟨(splitAux (sectionSeparator env).data d.data 0 []).map String.mk, by simp⟩
    obtain ⟨rest, hrest⟩ := hs
    simp [sectionId, hrest]

theorem first_occurrence (sep : List Char) (hsep : sep ≠ []) :
    ∀ l : List Char, sep <:+: l →
      ∃ a b, l = a ++ sep ++ b ∧ ¬ sep <:+: a ++ sep.dropLast := by
  have hpos : 0 < sep.length := List.length_pos.2 hsep
  have hsplit : sep.dropLast ++ [sep.getLast hsep] = sep := List.dropLast_concat_getLast hsep
  intro l
  induction l with
  | nil =>
    intro h
    exact absurd (List.infix_nil.1 h) hsep
  | cons x l ih =>
    intro h
    by_cases hp : sep <+: x :: l
    · obtain ⟨b, hb⟩ := hp
      refine ⟨[], b, by simp [hb], ?_⟩
      rintro ⟨u, v, huv⟩
      have hlen := congrArg List.length huv
      simp only [List.nil_append, List.length_append, List.length_dropLast] at hlen
      omega
    · have hin : sep <:+: l := by
        rcases List.infix_cons_iff.1 h with h1 | h1
        · exact absurd h1 hp
        · exact h1
      obtain ⟨a, b, hl, ha⟩ := ih hin
      refine ⟨x :: a, b, by simp [hl], ?_⟩
      intro hc
      rw [List.cons_append] at hc
      rcases List.infix_cons_iff.1 hc with h1 | h1
      · obtain ⟨t, ht⟩ := h1
        apply hp
        refine ⟨t ++ [sep.getLast hsep] ++ b, ?_⟩
        rw [hl]
        conv_rhs => rw [← hsplit]
        simp only [← List.append_assoc, ht]
        simp
      · exact ha h1

/-- Every section name that the constructor accepts splits at the first occurrence of the
separator; the identity read from it is `toInt()` of the text from there to the next
occurrence of the separator, or to the end of the name if there is none. -/
theorem sectionId_of_hasSeparator (env : Env) (sec : String)
    (h : hasSeparator env sec = true) :
    ∃ a c : String,
      ¬ (sectionSeparator env).data <:+: a.data ++ (sectionSeparator env).data.dropLast ∧
      ((sec = a ++ sectionSeparator env ++ c ∧ ¬ (sectionSeparator env).data <:+: c.data) ∨
        (∃ d : String, sec = a ++ sectionSeparator env ++ c ++ sectionSeparator env ++ d ∧
          ¬ (sectionSeparator env).data <:+: c.data ++ (sectionSeparator env).data.dropLast)) ∧
      sectionId env sec = env.toInt c := by
  have hne := sectionSeparator_ne_nil env
  obtain ⟨a, b, hab, ha⟩ := first_occurrence _ hne sec.data ((hasSeparator_iff env sec).1 h)
  by_cases hb : (sectionSeparator env).data <:+: b
  · obtain ⟨c, d, hcd, hc⟩ := first_occurrence _ hne b hb
    have hsec : sec = String.mk a ++ sectionSeparator env ++ String.mk c
        ++ sectionSeparator env ++ String.mk d := by
      apply String.ext
      simp only [String.data_append, hab, hcd, List.append_assoc]
    refine ⟨String.mk a, String.mk c, ha, Or.inr ⟨String.mk d, hsec, hc⟩, ?_⟩
    rw [hsec]
    exact (sectionId_between env (String.mk a) (String.mk c) ha).2 (String.mk d) hc
  · have hsec : sec = String.mk a ++ sectionSeparator env ++ String.mk b := by
      apply String.ext
      simp only [String.data_append, hab]
    refine ⟨String.mk a, String.mk b, ha, Or.inl ⟨hsec, hb⟩, ?_⟩
    rw [hsec]
    exact (sectionId_between env (String.mk a) (String.mk b) ha).1 hb

/-! ### The configuration scan -/

theorem identities_setObj_fresh (s : ContactsImporterListModel) (o : ContactsImporterModel)
    (max : Int) (tr : List Event) (hwf : ∀ p ∈ s.mList, p < s.next) :
    ContactsImporterListModel.identities
      { heap := setObj s.heap s.next o, next := s.next + 1, mList := s.mList ++ [s.next],
        mMaxContactsImporterId := max, trace := tr }
      = s.identities ++ [o.mIdentity] := by
  unfold ContactsImporterListModel.identities
  simp only [List.map_append, List.map_cons, List.map_nil]
  congr 1
  · apply List.map_congr_left
    intro p hp
    have : p ≠ s.next := Nat.ne_of_lt (hwf p hp)
    simp [ContactsImporterListModel.getIdentity, setObj, this]
  · simp [ContactsImporterListModel.getIdentity, setObj]

theorem constructStep_spec (env : Env) (config : Config) (s : ContactsImporterListModel)
    (sec : String) (hwf : ∀ p ∈ s.mList, p < s.next) :
    (constructStep env config s sec).identities =
        s.identities ++ (if producesInstance env config sec = true then [sectionId env sec] else []) ∧
    (constructStep env config s sec).mMaxContactsImporterId =
        (if hasSeparator env sec = true then max (sectionId env sec) s.mMaxContactsImporterId
          else s.mMaxContactsImporterId) ∧
    (∀ p ∈ (constructStep env config s sec).mList, p < (constructStep env config s sec).next) ∧
    (constructStep env config s sec).trace = s.trace := by
  unfold constructStep
  by_cases hsep : (qSplit sec (env.ContactsSection ++ "_")).length > 1
  · have hsep' : hasSeparator env sec = true := by
      simp [hasSeparator, sectionSeparator, hsep]
    simp only [hsep, if_true, hsep']
    by_cases hkey : "pluginTitle" ∈ config.getKeysNamesList sec
    · simp only [hkey, if_true]
      cases hplug : env.getPlugin (env.gPluginsMap (config.getString sec "pluginTitle" "")) with
      | none =>
        have hprod : producesInstance env config sec = false := by
          simp [producesInstance, hplug]
        simp only [hprod]
        refine ⟨by simp [ContactsImporterListModel.identities,
          ContactsImporterListModel.getIdentity], rfl, hwf, trivial⟩
      | some plugin =>
        have hprod : producesInstance env config sec = true := by
          simp [producesInstance, hplug, hsep', hkey]
        simp only [hprod, if_true, addContactsImporterModel]
        refine ⟨?_, rfl, ?_, trivial⟩
        · exact identities_setObj_fresh s _ _ _ hwf
        · intro p hp
          rcases List.mem_append.1 hp with h1 | h1
          · exact Nat.lt_succ_of_lt (hwf p h1)
          · simp only [List.mem_singleton] at h1
            simp [h1]
    · have hprod : producesInstance env config sec = false := by
        simp [producesInstance, hkey]
      simp only [hkey, if_false, hprod]
      refine ⟨by simp [ContactsImporterListModel.identities,
        ContactsImporterListModel.getIdentity], rfl, hwf, trivial⟩
  · have hsep' : hasSeparator env sec = false := by
      simp only [hasSeparator, sectionSeparator, decide_eq_false_iff_not]
      exact hsep
    have hprod : producesInstance env config sec = false := by
      simp [producesInstance, hsep']
    simp only [hsep, if_false, hsep', hprod]
    refine ⟨by simp, ?_, hwf, trivial⟩
    simp

theorem construct_foldl (env : Env) (config : Config) :
    ∀ (secs : List String) (s0 : ContactsImporterListModel), (∀ p ∈ s0.mList, p < s0.next) →
      (secs.foldl (constructStep env config) s0).identities =
          s0.identities ++ (secs.filter (producesInstance env config)).map (sectionId env) ∧
      (secs.foldl (constructStep env config) s0).mMaxContactsImporterId =
          (secs.filter (hasSeparator env)).foldl (fun m sec => max (sectionId env sec) m)
            s0.mMaxContactsImporterId ∧
      (∀ p ∈ (secs.foldl (constructStep env config) s0).mList,
          p < (secs.foldl (constructStep env config) s0).next) ∧
      (secs.foldl (constructStep env config) s0).trace = s0.trace := by
  intro secs
  induction secs with
  | nil => intro s0 hwf; exact ⟨by simp, by simp, hwf, rfl⟩
  | cons sec rest ih =>
    intro s0 hwf
    obtain ⟨h1, h2, h3, h4⟩ := constructStep_spec env config s0 sec hwf
    obtain ⟨i1, i2, i3, i4⟩ := ih (constructStep env config s0 sec) h3
    simp only [List.foldl_cons]
    refine ⟨?_, ?_, i3, by rw [i4, h4]⟩
    · rw [i1, h1]
      by_cases hp : producesInstance env config sec = true
      · simp [hp, List.filter_cons]
      · simp [hp, List.filter_cons]
    · rw [i2, h2]
      by_cases hp : hasSeparator env sec = true
      · simp [hp, List.filter_cons]
      · simp [hp, List.filter_cons]

theorem construct_identities (env : Env) (config : Config) :
    (construct env config).identities = instanceIds env config := by
  obtain ⟨h1, _⟩ := construct_foldl env config config.getSectionsNamesList emptyModel
    (by simp [emptyModel])
  simpa [construct, instanceIds, emptyModel, ContactsImporterListModel.identities] using h1

/-- C8, as amended. The constructor ignores every section whose name does not contain
`ContactsSection + "_"`: it adds no row and leaves the counter as it is. A section whose name
contains it but has no `pluginTitle` key, or whose title does not resolve, adds no row (its
identity still enters the counter). The constructed list holds, in enumeration order, exactly
one row for each section whose name contains the separator and whose `pluginTitle` resolves;
its identity is `toInt()` of the text between the first occurrence of the separator and the
next one (or the end of the name, if there is no other), which for a section named
`ContactsSection + "_" + rest` with `rest` free of the separator is `rest.toInt()`. The counter
is the maximum of -1 and the identities read from all sections containing the separator, and
nothing is emitted. -/
theorem construct_rows (env : Env) (config : Config) :
    (∀ sec, hasSeparator env sec = true ↔ (sectionSeparator env).data <:+: sec.data) ∧
    (∀ s sec, hasSeparator env sec = false → constructStep env config s sec = s) ∧
    (∀ s sec, producesInstance env config sec = false →
      (constructStep env config s sec).mList = s.mList) ∧
    (construct env config).identities = instanceIds env config ∧
    (construct env config).mList.length =
      (config.getSectionsNamesList.filter (producesInstance env config)).length ∧
    (∀ sec, hasSeparator env sec = true →
      ∃ a c : String,
        ¬ (sectionSeparator env).data <:+: a.data ++ (sectionSeparator env).data.dropLast ∧
        ((sec = a ++ sectionSeparator env ++ c ∧ ¬ (sectionSeparator env).data <:+: c.data) ∨
          (∃ d : String, sec = a ++ sectionSeparator env ++ c ++ sectionSeparator env ++ d ∧
            ¬ (sectionSeparator env).data <:+: c.data
              ++ (sectionSeparator env).data.dropLast)) ∧
        sectionId env sec = env.toInt c) ∧
    (∀ a c : String,
      ¬ (sectionSeparator env).data <:+: a.data ++ (sectionSeparator env).data.dropLast →
      (¬ (sectionSeparator env).data <:+: c.data →
        sectionId env (a ++ sectionSeparator env ++ c) = env.toInt c) ∧
      (∀ d : String,
        ¬ (sectionSeparator env).data <:+: c.data ++ (sectionSeparator env).data.dropLast →
        sectionId env (a ++ sectionSeparator env ++ c ++ sectionSeparator env ++ d)
          = env.toInt c)) ∧
    (∀ rest : String, ¬ (sectionSeparator env).data <:+: rest.data →
      hasSeparator env (sectionSeparator env ++ rest) = true ∧
      sectionId env (sectionSeparator env ++ rest) = env.toInt rest) ∧
    (construct env config).mMaxContactsImporterId =
      (config.getSectionsNamesList.filter (hasSeparator env)).foldl
        (fun m sec => max (sectionId env sec) m) (-1) ∧
    (construct env config).trace = [] := by
  obtain ⟨h1, h2, _, h4⟩ := construct_foldl env config config.getSectionsNamesList emptyModel
    (by simp [emptyModel])
  have hid : (construct env config).identities = instanceIds env config := by
    simpa [construct, instanceIds, emptyModel, ContactsImporterListModel.identities] using h1
  refine ⟨hasSeparator_iff env, ?_, ?_, hid, ?_, sectionId_of_hasSeparator env,
    sectionId_between env,
    sectionId_of_prefixed env, h2, h4⟩
  · intro s sec h
    have hlen : ¬ (qSplit sec (env.ContactsSection ++ "_")).length > 1 := by
      simpa [hasSeparator, sectionSeparator] using h
    simp only [constructStep, hlen, if_false]
  · intro s sec h
    unfold constructStep
    by_cases hsep : (qSplit sec (env.ContactsSection ++ "_")).length > 1
    · have hsep' : hasSeparator env sec = true := by
        simp [hasSeparator, sectionSeparator, hsep]
      simp only [hsep, if_true]
      by_cases hkey : "pluginTitle" ∈ config.getKeysNamesList sec
      · simp only [hkey, if_true]
        cases hplug : env.getPlugin (env.gPluginsMap (config.getString sec "pluginTitle" "")) with
        | none => rfl
        | some plugin => simp [producesInstance, hplug, hsep', hkey] at h
      · simp only [hkey, if_false]
    · simp only [hsep, if_false]
  · have := congrArg List.length hid
    simpa [ContactsImporterListModel.identities, instanceIds] using this

theorem construct_repeated_separator :
    (construct sampleEnv (sampleConfig ["Contacts_5Contacts_6"])).identities = [5] := by
  decide

/-- C8 fails as stated: the section `Old_Contacts_7` does not match the pattern
`<ContactsSection>_<id>`, yet the constructor builds a row with identity 7 for it and raises
the counter to 7. -/
theorem construct_accepts_unanchored_section :
    matchesSectionPattern sampleEnv "Old_Contacts_7" = false ∧
    (construct sampleEnv (sampleConfig ["Old_Contacts_7"])).identities = [7] ∧
    (construct sampleEnv (sampleConfig ["Old_Contacts_7"])).mMaxContactsImporterId = 7 := by
  decide

/-! ### Reachable states -/

theorem foldl_max_ge (f : String → Int) :
    ∀ (l : List String) (m0 : Int),
      m0 ≤ l.foldl (fun m sec => max (f sec) m) m0 ∧
      ∀ sec ∈ l, f sec ≤ l.foldl (fun m sec => max (f sec) m) m0 := by
  intro l
  induction l with
  | nil => intro m0; simp
  | cons a rest ih =>
    intro m0
    obtain ⟨h1, h2⟩ := ih (max (f a) m0)
    simp only [List.foldl_cons]
    refine ⟨le_trans (le_max_right _ _) h1, fun sec hsec => ?_⟩
    rcases List.mem_cons.1 hsec with h | h
    · subst h
      exact le_trans (le_max_left _ _) h1
    · exact h2 sec h

theorem construct_counterBounds (env : Env) (config : Config)
    (hcfg : (instanceIds env config).Nodup) : CounterBounds (construct env config) := by
  obtain ⟨h1, h2, h3, _⟩ := construct_foldl env config config.getSectionsNamesList emptyModel
    (by simp [emptyModel])
  have hid : (construct env config).identities = instanceIds env config := by
    simpa [construct, instanceIds, emptyModel, ContactsImporterListModel.identities] using h1
  have hmax := foldl_max_ge (sectionId env)
    (config.getSectionsNamesList.filter (hasSeparator env)) (-1)
  refine ⟨h3, by rw [hid]; exact hcfg, fun p hp => ?_, ?_⟩
  · have hmem : (construct env config).getIdentity p ∈ instanceIds env config := by
      rw [← hid]
      exact List.mem_map.2 ⟨p, hp, rfl⟩
    obtain ⟨sec, hsec, hsid⟩ := List.mem_map.1 hmem
    rw [List.mem_filter] at hsec
    have hsep : hasSeparator env sec = true := by
      have := hsec.2
      simp only [producesInstance, Bool.and_eq_true] at this
      exact this.1.1
    have := hmax.2 sec (List.mem_filter.2 ⟨hsec.1, hsep⟩)
    rw [← hsid]
    unfold construct
    rw [h2]
    simpa [emptyModel] using this
  · unfold construct
    rw [h2]
    simpa [emptyModel] using hmax.1

theorem removeRowsLoop_sublist (row : Nat) :
    ∀ (n : Nat) (s s' : ContactsImporterListModel), removeRowsLoop row n s = some s' →
      s'.mList.Sublist s.mList ∧ s'.heap = s.heap ∧ s'.next = s.next ∧
      s'.mMaxContactsImporterId = s.mMaxContactsImporterId := by
  intro n
  induction n with
  | zero =>
    intro s s' h
    simp only [removeRowsLoop, Option.some.injEq] at h
    subst h
    exact ⟨List.Sublist.refl _, rfl, rfl, rfl⟩
  | succ n ih =>
    intro s s' h
    rw [removeRowsLoop] at h
    cases hg : s.mList.get? row with
    | none => rw [hg] at h; simp at h
    | some p =>
      rw [hg] at h
      obtain ⟨h1, h2, h3, h4⟩ := ih _ _ h
      exact ⟨h1.trans (List.eraseIdx_sublist _ _), h2, h3, h4⟩

theorem removeRows_sublist (s : ContactsImporterListModel) (row count : Int)
    (r : Bool × ContactsImporterListModel) (h : removeRows s row count = some r) :
    r.2.mList.Sublist s.mList ∧ r.2.heap = s.heap ∧ r.2.next = s.next ∧
      r.2.mMaxContactsImporterId = s.mMaxContactsImporterId := by
  unfold removeRows at h
  by_cases hg : row < 0 ∨ count < 0 ∨ wrapInt (row + count - 1) ≥ rowCount s
  · simp only [hg, if_true, Option.some.injEq] at h
    subst h
    exact ⟨List.Sublist.refl _, rfl, rfl, rfl⟩
  · simp only [hg, if_false] at h
    cases hl : removeRowsLoop row.toNat count.toNat
        { s with trace := s.trace ++ [Event.beginRemoveRows row (wrapInt (row + count - 1))] } with
    | none => rw [hl] at h; simp at h
    | some s1 =>
      rw [hl] at h
      simp only [Option.some.injEq] at h
      subst h
      obtain ⟨a1, a2, a3, a4⟩ := removeRowsLoop_sublist _ _ _ _ hl
      exact ⟨a1, a2, a3, a4⟩

theorem counterBounds_of_sublist (s s' : ContactsImporterListModel)
    (hs : CounterBounds s) (hsub : s'.mList.Sublist s.mList) (hheap : s'.heap = s.heap)
    (hnext : s'.next = s.next)
    (hmax : s'.mMaxContactsImporterId = s.mMaxContactsImporterId) : CounterBounds s' := by
  obtain ⟨h1, h2, h3, h4⟩ := hs
  have hid : ∀ p, s'.getIdentity p = s.getIdentity p := by
    intro p
    simp [ContactsImporterListModel.getIdentity, hheap]
  have hfun : s'.getIdentity = s.getIdentity := funext hid
  refine ⟨fun p hp => ?_, ?_, fun p hp => ?_, ?_⟩
  · rw [hnext]
    exact h1 p (hsub.subset hp)
  · unfold ContactsImporterListModel.identities
    rw [hfun]
    exact h2.sublist (hsub.map _)
  · rw [hid, hmax]
    exact h3 p (hsub.subset hp)
  · rw [hmax]
    exact h4

theorem counterBounds_append_fresh (s : ContactsImporterListModel) (fields : QVariantMap)
    (tr : List Event) (hs : CounterBounds s) :
    CounterBounds
      { heap := setObj s.heap s.next
          { mIdentity := s.mMaxContactsImporterId + 1, mFields := fields }
        next := s.next + 1
        mList := s.mList ++ [s.next]
        mMaxContactsImporterId := s.mMaxContactsImporterId + 1
        trace := tr } := by
  obtain ⟨h1, h2, h3, h4⟩ := hs
  have hids := identities_setObj_fresh s
    { mIdentity := s.mMaxContactsImporterId + 1, mFields := fields }
    (s.mMaxContactsImporterId + 1) tr h1
  have hle : ∀ i ∈ s.identities, i ≤ s.mMaxContactsImporterId := by
    intro i hi
    obtain ⟨p, hp1, hp2⟩ := List.mem_map.1 hi
    rw [← hp2]
    exact h3 p hp1
  refine ⟨?_, ?_, ?_, ?_⟩
  · intro p hp1
    rcases List.mem_append.1 hp1 with h | h
    · exact Nat.lt_succ_of_lt (h1 p h)
    · simp only [List.mem_singleton] at h
      simp [h]
  · rw [hids]
    refine List.Nodup.append h2 (List.nodup_singleton _) ?_
    intro i hi1 hi2
    simp only [List.mem_singleton] at hi2
    have := hle i hi1
    omega
  · intro p hp1
    have hmem := List.mem_map_of_mem
      (ContactsImporterListModel.getIdentity
        { heap := setObj s.heap s.next
            { mIdentity := s.mMaxContactsImporterId + 1, mFields := fields }
          next := s.next + 1
          mList := s.mList ++ [s.next]
          mMaxContactsImporterId := s.mMaxContactsImporterId + 1
          trace := tr }) hp1
    have hids' := hids
    unfold ContactsImporterListModel.identities at hids'
    rw [hids'] at hmem
    show _ ≤ s.mMaxContactsImporterId + 1
    rcases List.mem_append.1 hmem with h | h
    · have := hle _ h
      omega
    · simp only [List.mem_singleton] at h
      omega
  · show -1 ≤ s.mMaxContactsImporterId + 1
    omega

theorem createContactsImporter_counterBounds (env : Env) (s : ContactsImporterListModel)
    (data : QVariantMap) (hs : CounterBounds s)
    (hsafe : createsInstance env data = true → s.mMaxContactsImporterId < INT_MAX) :
    CounterBounds (createContactsImporter env s data).2 ∧
      s.mMaxContactsImporterId ≤ (createContactsImporter env s data).2.mMaxContactsImporterId ∧
      ((∀ i ∈ s.identities, 0 ≤ i) →
        ∀ i ∈ (createContactsImporter env s data).2.identities, 0 ≤ i) := by
  cases hc : createsInstance env data with
  | false =>
    rw [createContactsImporter_unresolved env s data hc]
    exact ⟨hs, le_refl _, fun h => h⟩
  | true =>
    have hlt := hsafe hc
    unfold INT_MAX at hlt
    unfold createsInstance at hc
    rw [Bool.and_eq_true] at hc
    obtain ⟨hf, hsome⟩ := hc
    cases hp : env.getPlugin (data.value "pluginTitle").toString with
    | none => rw [hp] at hsome; simp at hsome
    | some plugin =>
      rw [createContactsImporter_resolved env s data plugin hf hp]
      have hmin : -1 ≤ s.mMaxContactsImporterId := hs.2.2.2
      have hw : wrapInt (s.mMaxContactsImporterId + 1) = s.mMaxContactsImporterId + 1 :=
        wrapInt_of_range _ (by omega) (by omega)
      simp only [hw]
      refine ⟨counterBounds_append_fresh s _ _ hs, by omega, fun hnn i hi => ?_⟩
      rw [identities_setObj_fresh s _ _ _ hs.1] at hi
      rcases List.mem_append.1 hi with h | h
      · exact hnn i h
      · simp only [List.mem_singleton] at h
        omega

theorem setFields_counterBounds (s : ContactsImporterListModel) (p : Nat) (data : QVariantMap)
    (hs : CounterBounds s) :
    CounterBounds (setFields s p data) ∧ (setFields s p data).identities = s.identities := by
  have hid : ∀ q, (setFields s p data).getIdentity q = s.getIdentity q := by
    intro q
    by_cases hq : q = p
    · subst hq
      simp [setFields, setObj, ContactsImporterListModel.getIdentity]
    · simp [setFields, setObj, ContactsImporterListModel.getIdentity, hq]
  have hids : (setFields s p data).identities = s.identities := by
    unfold ContactsImporterListModel.identities
    rw [funext hid]
    rfl
  obtain ⟨h1, h2, h3, h4⟩ := hs
  refine ⟨⟨h1, by rw [hids]; exact h2, fun q hq => ?_, h4⟩, hids⟩
  rw [hid]
  exact h3 q hq

theorem removeContactsImporter_counterBounds (env : Env) (s s' : ContactsImporterListModel)
    (p : Nat) (hs : CounterBounds s) (h : removeContactsImporter env s p = some s') :
    CounterBounds s' ∧ s'.mList.Sublist s.mList ∧ s'.heap = s.heap := by
  by_cases hmem : p ∈ s.mList
  · obtain ⟨s1, pre, post, hr, hl, hpre, hl', hheap, hnext, hmax⟩ :=
      removeContactsImporter_mem env s p hmem
    rw [hr] at h
    simp only [Option.some.injEq] at h
    subst h
    have hsub : s1.mList.Sublist s.mList := by
      rw [hl', hl]
      exact (List.Sublist.refl pre).append (List.sublist_cons_self p post)
    refine ⟨?_, hsub, hheap⟩
    by_cases hdec : 0 ≤ s.getIdentity p ∧ s.getIdentity p = s.mMaxContactsImporterId
    · rw [if_pos hdec] at hmax
      obtain ⟨h1, h2, h3, h4⟩ := hs
      have hid : ∀ q, s1.getIdentity q = s.getIdentity q := by
        intro q
        simp [ContactsImporterListModel.getIdentity, hheap]
      have hnd : (pre.map s.getIdentity ++ s.getIdentity p :: post.map s.getIdentity).Nodup := by
        have := h2
        unfold ContactsImporterListModel.identities at this
        rw [hl] at this
        simpa using this
      refine ⟨fun q hq => ?_, ?_, fun q hq => ?_, ?_⟩
      · rw [hnext]
        exact h1 q (hsub.subset hq)
      · unfold ContactsImporterListModel.identities
        rw [funext hid]
        exact h2.sublist (hsub.map _)
      · rw [hid, hmax]
        have hle := h3 q (hsub.subset hq)
        have hne : s.getIdentity q ≠ s.getIdentity p := by
          intro heq
          rw [hl'] at hq
          rw [List.nodup_append] at hnd
          obtain ⟨_, hnd2, hdisj⟩ := hnd
          rcases List.mem_append.1 hq with hq1 | hq1
          · have hm1 : s.getIdentity q ∈ pre.map s.getIdentity := List.mem_map.2 ⟨q, hq1, rfl⟩
            exact hdisj hm1 (by rw [heq]; exact List.mem_cons_self _ _)
          · have hm1 : s.getIdentity q ∈ post.map s.getIdentity := List.mem_map.2 ⟨q, hq1, rfl⟩
            rw [List.nodup_cons] at hnd2
            exact hnd2.1 (by rw [← heq]; exact hm1)
        have := hdec.2
        omega
      · rw [hmax]
        have := hdec.1
        have := hdec.2
        omega
    · rw [if_neg hdec] at hmax
      exact counterBounds_of_sublist s s1 hs hsub hheap hnext hmax
  · rw [removeContactsImporter_not_mem env s p hmem] at h
    simp only [Option.some.injEq] at h
    subst h
    exact ⟨hs, List.Sublist.refl _, rfl⟩

theorem run_counterBounds (env : Env) (s s' : ContactsImporterListModel) (op : Op)
    (hs : CounterBounds s) (hsafe : op.noWrap env s) (hrun : op.run env s = some s') :
    CounterBounds s' ∧
      ((∀ i ∈ s.identities, 0 ≤ i) → ∀ i ∈ s'.identities, 0 ≤ i) := by
  cases op with
  | create data =>
    simp only [Op.run, Option.some.injEq] at hrun
    subst hrun
    obtain ⟨h1, _, h3⟩ := createContactsImporter_counterBounds env s data hs hsafe
    exact ⟨h1, h3⟩
  | upsert data pId =>
    simp only [Op.run, Option.some.injEq] at hrun
    subst hrun
    unfold addContactsImporter
    cases hf : findContactsImporterModelFromId s pId with
    | some q =>
      obtain ⟨h1, h2⟩ := setFields_counterBounds s q data hs
      exact ⟨h1, fun h => by simpa only [h2] using h⟩
    | none =>
      obtain ⟨h1, _, h3⟩ := createContactsImporter_counterBounds env s data hs (hsafe hf)
      exact ⟨h1, h3⟩
  | remove p =>
    simp only [Op.run] at hrun
    obtain ⟨h1, h2, h3⟩ := removeContactsImporter_counterBounds env s s' p hs hrun
    refine ⟨h1, fun hnn i hi => ?_⟩
    obtain ⟨q, hq1, hq2⟩ := List.mem_map.1 hi
    refine hnn i (List.mem_map.2 ⟨q, h2.subset hq1, ?_⟩)
    rw [← hq2]
    simp [ContactsImporterListModel.getIdentity, h3]
  | removeRows row count =>
    simp only [Op.run] at hrun
    cases hr : removeRows s row count with
    | none => rw [hr] at hrun; simp at hrun
    | some r =>
      rw [hr] at hrun
      simp only [Option.map_some', Option.some.injEq] at hrun
      subst hrun
      obtain ⟨h1, h2, h3, h4⟩ := removeRows_sublist s row count r hr
      refine ⟨counterBounds_of_sublist s r.2 hs h1 h2 h3 h4, fun hnn i hi => ?_⟩
      obtain ⟨q, hq1, hq2⟩ := List.mem_map.1 hi
      refine hnn i (List.mem_map.2 ⟨q, h1.subset hq1, ?_⟩)
      rw [← hq2]
      simp [ContactsImporterListModel.getIdentity, h2]

theorem reachable_counterBounds (env : Env) (config : Config) (s : ContactsImporterListModel)
    (hreach : ReachableNoWrap env config s) (hcfg : (instanceIds env config).Nodup) :
    CounterBounds s ∧ ((∀ i ∈ instanceIds env config, 0 ≤ i) → ∀ i ∈ s.identities, 0 ≤ i) := by
  induction hreach with
  | construct =>
    refine ⟨construct_counterBounds env config hcfg, fun h => ?_⟩
    rw [construct_identities env config]
    exact h
  | call s s' op _ hsafe hrun ih =>
    obtain ⟨h1, h2⟩ := run_counterBounds env s s' op ih.1 hsafe hrun
    exact ⟨h1, fun h => h2 (ih.2 h)⟩

theorem createContactsImporter_counter_ge (env : Env) (s : ContactsImporterListModel)
    (data : QVariantMap)
    (hsafe : createsInstance env data = true → s.mMaxContactsImporterId < INT_MAX) :
    s.mMaxContactsImporterId ≤ (createContactsImporter env s data).2.mMaxContactsImporterId := by
  cases hc : createsInstance env data with
  | false =>
    rw [createContactsImporter_unresolved env s data hc]
  | true =>
    have hlt := hsafe hc
    unfold INT_MAX at hlt
    unfold createsInstance at hc
    rw [Bool.and_eq_true] at hc
    obtain ⟨hf, hsome⟩ := hc
    cases hp : env.getPlugin (data.value "pluginTitle").toString with
    | none => rw [hp] at hsome; simp at hsome
    | some plugin =>
      rw [createContactsImporter_resolved env s data plugin hf hp]
      exact wrapInt_succ_ge _ hlt

theorem run_counter_decrease (env : Env) (s s' : ContactsImporterListModel) (op : Op)
    (hsafe : op.noWrap env s) (hrun : op.run env s = some s')
    (hlt : s'.mMaxContactsImporterId < s.mMaxContactsImporterId) :
    ∃ p, op = Op.remove p ∧ p ∈ s.mList ∧ s.getIdentity p = s.mMaxContactsImporterId ∧
      s'.mMaxContactsImporterId = s.mMaxContactsImporterId - 1 := by
  cases op with
  | create data =>
    simp only [Op.run, Option.some.injEq] at hrun
    subst hrun
    have := createContactsImporter_counter_ge env s data hsafe
    omega
  | upsert data pId =>
    simp only [Op.run, Option.some.injEq] at hrun
    subst hrun
    unfold addContactsImporter at hlt
    cases hf : findContactsImporterModelFromId s pId with
    | some q =>
      rw [hf] at hlt
      simp [setFields] at hlt
    | none =>
      rw [hf] at hlt
      have := createContactsImporter_counter_ge env s data (hsafe hf)
      simp only at hlt
      omega
  | remove p =>
    simp only [Op.run] at hrun
    by_cases hmem : p ∈ s.mList
    · obtain ⟨s1, _, _, hr, _, _, _, _, _, hmax⟩ := removeContactsImporter_mem env s p hmem
      rw [hr] at hrun
      simp only [Option.some.injEq] at hrun
      subst hrun
      by_cases hdec : 0 ≤ s.getIdentity p ∧ s.getIdentity p = s.mMaxContactsImporterId
      · rw [if_pos hdec] at hmax
        exact ⟨p, rfl, hmem, hdec.2, hmax⟩
      · rw [if_neg hdec] at hmax
        omega
    · rw [removeContactsImporter_not_mem env s p hmem] at hrun
      simp only [Option.some.injEq] at hrun
      subst hrun
      omega
  | removeRows row count =>
    simp only [Op.run] at hrun
    cases hr : removeRows s row count with
    | none => rw [hr] at hrun; simp at hrun
    | some r =>
      rw [hr] at hrun
      simp only [Option.map_some', Option.some.injEq] at hrun
      subst hrun
      have := (removeRows_sublist s row count r hr).2.2.2
      omega

/-- C3, as amended. When `pluginTitle` resolves and the counter (an `int`) is below `INT_MAX`,
`createContactsImporter` gives the new instance the identity `counter + 1`, sets the counter to
that value and appends the instance as the last row (between `beginInsertRows` and
`endInsertRows`, followed by the added event); the identity is strictly greater than the
previous counter, and, when the state is reachable from construction over a store whose
instance-building sections carry pairwise distinct identities by calls none of which increments
the counter past `INT_MAX`, strictly greater than the identity of every row already in the
list. -/
theorem createContactsImporter_identity (env : Env) (s : ContactsImporterListModel)
    (data : QVariantMap) (plugin : ContactsImporterPlugin)
    (htitle : data.contains "pluginTitle" = true)
    (hplugin : env.getPlugin (data.value "pluginTitle").toString = some plugin)
    (hmin : -2147483648 ≤ s.mMaxContactsImporterId)
    (hmax : s.mMaxContactsImporterId < INT_MAX) :
    ∃ p s', createContactsImporter env s data = (some p, s') ∧
      s'.getIdentity p = s.mMaxContactsImporterId + 1 ∧
      s'.mMaxContactsImporterId = s.mMaxContactsImporterId + 1 ∧
      s'.mList = s.mList ++ [p] ∧
      s'.trace = s.trace ++ [Event.beginInsertRows (rowCount s) (rowCount s),
        Event.endInsertRows, Event.contactsImporterAdded p] ∧
      s.mMaxContactsImporterId < s'.getIdentity p ∧
      (∀ config : Config, ReachableNoWrap env config s → (instanceIds env config).Nodup →
        ∀ q ∈ s.mList, s.getIdentity q < s'.getIdentity p) := by
  unfold INT_MAX at hmax
  have hw : wrapInt (s.mMaxContactsImporterId + 1) = s.mMaxContactsImporterId + 1 :=
    wrapInt_of_range _ (by omega) (by omega)
  refine ⟨_, _, createContactsImporter_resolved env s data plugin htitle hplugin,
    ?_, ?_, rfl, ?_, ?_, ?_⟩
  · simp [ContactsImporterListModel.getIdentity, setObj, hw]
  · exact hw
  · simp
  · simp only [ContactsImporterListModel.getIdentity, setObj, if_true, hw]
    omega
  · intro config hreach hdistinct q hq
    have hle := (reachable_counterBounds env config s hreach hdistinct).1.2.2.1 q hq
    simp only [ContactsImporterListModel.getIdentity, setObj, if_true, hw] at hle ⊢
    omega

/-- C3, as amended, at a concrete input: on the list constructed over `Contacts_0`,
`Contacts_1`, `Contacts_2` the new instance gets identity 3, above the identities 0, 1, 2 of
the three rows. -/
theorem createContactsImporter_identity_witness :
    ∃ p s', createContactsImporter sampleEnv threeRows sampleData = (some p, s') ∧
      s'.getIdentity p = threeRows.mMaxContactsImporterId + 1 ∧
      s'.mMaxContactsImporterId = threeRows.mMaxContactsImporterId + 1 ∧
      s'.mList = threeRows.mList ++ [p] ∧
      s'.trace = threeRows.trace ++ [Event.beginInsertRows (rowCount threeRows)
        (rowCount threeRows), Event.endInsertRows, Event.contactsImporterAdded p] ∧
      threeRows.mMaxContactsImporterId < s'.getIdentity p ∧
      (∀ q ∈ threeRows.mList, threeRows.getIdentity q < s'.getIdentity p) := by
  obtain ⟨p, s', h1, h2, h3, h4, h5, h6, h7⟩ :=
    createContactsImporter_identity sampleEnv threeRows sampleData samplePlugin
      (by decide) rfl (by decide) (by decide)
  exact ⟨p, s', h1, h2, h3, h4, h5, h6,
    h7 threeSections ReachableNoWrap.construct (by decide)⟩

/-- C7, as amended. Over a configuration store whose instance-building sections carry pairwise
distinct, non-negative identities, in every state reachable from construction by calls of
create, upsert, remove and removeRows none of which increments the counter past `INT_MAX`, the
identities of the rows are pairwise distinct and every one is non-negative. -/
theorem identities_distinct_nonneg (env : Env) (config : Config) (s : ContactsImporterListModel)
    (hreach : ReachableNoWrap env config s)
    (hdistinct : (instanceIds env config).Nodup)
    (hnonneg : ∀ i ∈ instanceIds env config, 0 ≤ i) :
    s.identities.Nodup ∧ ∀ i ∈ s.identities, 0 ≤ i := by
  obtain ⟨h1, h2⟩ := reachable_counterBounds env config s hreach hdistinct
  exact ⟨h1.2.1, h2 hnonneg⟩

/-- C7, as amended, at a concrete input: three sections, then one creation. -/
theorem identities_distinct_nonneg_witness :
    fourRows.identities.Nodup ∧ ∀ i ∈ fourRows.identities, 0 ≤ i :=
  identities_distinct_nonneg sampleEnv threeSections fourRows
    (ReachableNoWrap.call threeRows fourRows (Op.create sampleData) ReachableNoWrap.construct
      (fun _ => by decide) rfl)
    (by decide) (by decide)

/-- C7 fails as stated: over the sections `Contacts_-5` and `Contacts_-05` the constructed
list, a reachable state, has two rows, both with the negative identity -5. -/
theorem construct_identities_negative_repeated :
    Reachable sampleEnv (sampleConfig ["Contacts_-5", "Contacts_-05"])
      (construct sampleEnv (sampleConfig ["Contacts_-5", "Contacts_-05"])) ∧
    (construct sampleEnv (sampleConfig ["Contacts_-5", "Contacts_-05"])).identities = [-5, -5] :=
  ⟨Reachable.construct, by decide⟩

/-- C10, as amended. In every state reachable from construction over a configuration store by
calls of create, upsert, remove and removeRows: if the instance-building sections of the store
carry pairwise distinct identities and none of the calls incremented the counter past
`INT_MAX`, the counter is greater than or equal to the identity of every row; and, over any
store, a call that does not increment the counter past `INT_MAX` decreases the counter only
when it is a remove of a row whose identity equals the counter, then by exactly one. -/
theorem counter_bounds_rows (env : Env) (config : Config) (s : ContactsImporterListModel) :
    (ReachableNoWrap env config s → (instanceIds env config).Nodup →
      ∀ p ∈ s.mList, s.getIdentity p ≤ s.mMaxContactsImporterId) ∧
    (Reachable env config s →
      ∀ (op : Op) (s' : ContactsImporterListModel), op.noWrap env s → op.run env s = some s' →
        s'.mMaxContactsImporterId < s.mMaxContactsImporterId →
        ∃ p, op = Op.remove p ∧ p ∈ s.mList ∧ s.getIdentity p = s.mMaxContactsImporterId ∧
          s'.mMaxContactsImporterId = s.mMaxContactsImporterId - 1) := by
  refine ⟨fun hreach hdistinct => ?_, fun _ op s' hsafe hrun hlt => ?_⟩
  · obtain ⟨h1, _⟩ := reachable_counterBounds env config s hreach hdistinct
    exact h1.2.2.1
  · exact run_counter_decrease env s s' op hsafe hrun hlt

/-- C10, as amended, at concrete inputs: after three sections and the removal of the last row
the counter bounds the rows; and over the sections `Contacts_3`, `Contacts_03`, whose
identities repeat, the removal of row 0 decreases the counter as a remove of a row holding the
counter's value, by one. -/
theorem counter_bounds_rows_witness :
    (∀ p ∈ twoRows.mList, twoRows.getIdentity p ≤ twoRows.mMaxContactsImporterId) ∧
    (∀ s', Op.run sampleEnv repeatedRows (Op.remove 0) = some s' →
      s'.mMaxContactsImporterId < repeatedRows.mMaxContactsImporterId →
      ∃ p, Op.remove 0 = Op.remove p ∧ p ∈ repeatedRows.mList ∧
        repeatedRows.getIdentity p = repeatedRows.mMaxContactsImporterId ∧
        s'.mMaxContactsImporterId = repeatedRows.mMaxContactsImporterId - 1) :=
  ⟨(counter_bounds_rows sampleEnv threeSections twoRows).1
      (ReachableNoWrap.call threeRows twoRows (Op.remove 2) ReachableNoWrap.construct
        trivial rfl)
      (by decide),
    fun s' hrun hlt =>
      (counter_bounds_rows sampleEnv (sampleConfig ["Contacts_3", "Contacts_03"])
        repeatedRows).2 Reachable.construct (Op.remove 0) s' trivial hrun hlt⟩

/-- C10 fails as stated: over the sections `Contacts_3` and `Contacts_03` the constructor
builds two rows with identity 3 and sets the counter to 3; removing the first row leads to a
reachable state whose counter is 2 while the remaining row still has identity 3. -/
theorem counter_below_row_after_remove :
    (construct sampleEnv (sampleConfig ["Contacts_3", "Contacts_03"])).identities = [3, 3] ∧
    (construct sampleEnv (sampleConfig ["Contacts_3", "Contacts_03"])).mMaxContactsImporterId = 3 ∧
    ∃ s, removeContactsImporter sampleEnv
        (construct sampleEnv (sampleConfig ["Contacts_3", "Contacts_03"])) 0 = some s ∧
      Reachable sampleEnv (sampleConfig ["Contacts_3", "Contacts_03"]) s ∧
      s.identities = [3] ∧ s.mMaxContactsImporterId = 2 := by
  refine ⟨by decide, by decide, ?_⟩
  have hval : (removeContactsImporter sampleEnv
      (construct sampleEnv (sampleConfig ["Contacts_3", "Contacts_03"])) 0).map
      (fun s => (s.identities, s.mMaxContactsImporterId)) = some ([3], 2) := by decide
  cases h : removeContactsImporter sampleEnv
      (construct sampleEnv (sampleConfig ["Contacts_3", "Contacts_03"])) 0 with
  | none => rw [h] at hval; simp at hval
  | some s =>
    rw [h] at hval
    simp only [Option.map_some', Option.some.injEq, Prod.mk.injEq] at hval
    exact ⟨s, rfl, Reachable.call _ s (Op.remove 0) Reachable.construct h, hval.1, hval.2⟩

end ContactsImporter
